import Mathlib

/-!
# Verification of the hermes billing-disbursement reconciler

Shallow embedding of `process_billing_disbursements` from
`src/app/background_jobs.py` (lines 104-325), together with the pieces of
`src/app/hcb_client.py` it depends on (the `HCBAPIError` shape, lines 11-15,
and the `create_disbursement` call surface, lines 155-213).

Modelling conventions:
* The database session is modelled by an explicit `DB` value; a commit either
  durably applies the staged changes or fails.  The step-3c commit (line 268)
  is the fallible one, driven by an oracle `Env.commitOk` keyed by the event
  id of the group being committed; the remaining commits in the function have
  no claim exercising their failure and are modelled as succeeding.
* `uuid.uuid4()` (line 243) is modelled as a deterministic fresh-key
  generator `freshKey` driven by a counter that starts at 0 each run; all
  that matters for the claims is that a key is drawn exactly once per
  created row and never redrawn.
* The gateway `hcb_client.create_disbursement` is an oracle
  `Env.gw : GatewayCall -> GatewayResult`; `GatewayResult.ok` carries the
  optional `id` field of the JSON response (`hcb_response.get("id")`),
  `apiError` models a raised `HCBAPIError`, and `exn` models any other
  exception raised by the call.
* Slack notifications (`send_disbursement_notification`) are recorded in a
  list and modelled as succeeding; timestamps (`completed_at`, `created_at`)
  are omitted, no claim mentions them.
* Each pass records a trace of externally visible steps (`NEvt` for the
  new-work pass, `REvt` for the recovery pass) so that ordering claims can
  be stated; the combined run tags them with `Sum.inl` (recovery) and
  `Sum.inr` (new work), mirroring the strictly sequential structure of the
  Python function body.
-/

namespace Hermes

/-- Status enum of `Disbursement.status` (`DisbursementStatus` in `app.models`,
used in `background_jobs.py` as PENDING / COMPLETED / FAILED). -/
inductive DStatus where
  | pending
  | completed
  | failed
deriving DecidableEq, Repr

/-- A `Letter` row, restricted to the columns `process_billing_disbursements`
reads or writes: `id`, `event_id`, `cost_cents` (nullable, line 218 uses
`cost_cents or 0`), `billing_paid`. -/
structure Letter where
  id : Nat
  event_id : Nat
  cost_cents : Option Int
  billing_paid : Bool
deriving DecidableEq, Repr

/-- An `Event` row, restricted to the columns used by billing:
`id`, `name`, `org_slug` (nullable). -/
structure Event where
  id : Nat
  name : String
  org_slug : Option String
deriving DecidableEq, Repr

/-- A `Disbursement` row as created and mutated by
`process_billing_disbursements` (lines 247-253, 155-156, 169-171, 193-194,
283-285). -/
structure Disbursement where
  idempotency_key : String
  event_id : Nat
  amount_cents : Int
  letter_count : Nat
  status : DStatus
  hcb_transfer_id : Option String
  error_message : Option String
deriving DecidableEq, Repr

/-- The durable store: letters, events, disbursements.  Query results are
returned in stored (list) order; none of the queries in the source carry an
ORDER BY clause. -/
structure DB where
  letters : List Letter
  events : List Event
  disbursements : List Disbursement
deriving DecidableEq, Repr

/-- `HCBAPIError` from `src/app/hcb_client.py` lines 11-15: a message and an
optional HTTP status code. -/
structure HCBError where
  message : String
  status_code : Option Nat
deriving DecidableEq, Repr

/-- The argument surface of `hcb_client.create_disbursement`
(`src/app/hcb_client.py` lines 155-161): source org slug (nullable, the
recovery pass passes `event.org_slug` verbatim), destination slug, amount,
and the `name` memo. -/
structure GatewayCall where
  source_org_slug : Option String
  destination_org_slug : String
  amount_cents : Int
  name : String
deriving DecidableEq, Repr

/-- Outcome of one gateway call: a successful JSON response (carrying its
optional `id`), a raised `HCBAPIError`, or any other raised exception. -/
inductive GatewayResult where
  | ok (transfer_id : Option String)
  | apiError (e : HCBError)
  | exn (message : String)
deriving DecidableEq, Repr

/-- One element of the run's `errors` list.  The source appends dicts with
`event_id`/`error` keys in the recovery pass (lines 198, 201) and
`event`/`error`(/`will_retry`) keys in the new-work pass (lines 237, 308,
313); absent keys are `none`. -/
structure ErrEntry where
  event_id : Option Nat
  event : Option String
  error : String
  will_retry : Option Bool
deriving DecidableEq, Repr

/-- One Slack success notification (`send_disbursement_notification`,
lines 176-183 and 291-298). -/
structure Notif where
  event_name : String
  org_slug : Option String
  letter_count : Nat
  amount_cents : Int
  hcb_transfer_id : Option String
  idempotency_key : String
deriving DecidableEq, Repr

/-- Trace events of the new-work pass (step 2, lines 203-313).
`commit3c` is the durable commit of line 268 and carries exactly what that
commit makes durable: the PENDING row and the list of letter ids flagged
billed.  `commit3cFail` is that commit failing.  `callNew` is the gateway
call of lines 275-280 (carrying the already committed PENDING row).
`commit5` is the success commit of line 286.  `skipGroup` is the
empty-slug skip of lines 235-238. -/
inductive NEvt where
  | skipGroup (event_id : Nat)
  | commit3c (d : Disbursement) (billed : List Nat)
  | commit3cFail (event_id : Nat)
  | callNew (d : Disbursement) (call : GatewayCall)
  | commit5 (d : Disbursement)
deriving DecidableEq, Repr

/-- Trace events of the recovery pass (step 1, lines 138-201): the retry
gateway call of lines 162-167 (carrying the stored PENDING row it retries)
and the commits of lines 157, 172 and 195 (carrying the row state they make
durable). -/
inductive REvt where
  | retryCall (d : Disbursement) (call : GatewayCall)
  | commitR (d : Disbursement)
deriving DecidableEq, Repr

/-- The run environment: the gateway oracle, the step-3c commit oracle
(keyed by the event id of the group being committed; `true` = commit
succeeds), the configured fulfillment destination slug
(`settings.hcb_fulfillment_org_slug`), and whether `settings.hcb_api_key`
is configured (line 126 guard). -/
structure Env where
  gw : GatewayCall → GatewayResult
  commitOk : Nat → Bool
  fulfillment_org_slug : String
  hcb_api_key_configured : Bool

/-- Python falsiness of the slug check `if not org_slug` (line 235): true
for a null slug and for an empty string. -/
def slugFalsy : Option String → Bool
  | none => true
  | some s => s == ""

/-- The permanent-error test of lines 191-192:
`e.status_code is not None and e.status_code in {400, 403, 404}`. -/
def permanentError (e : HCBError) : Bool :=
  match e.status_code with
  | some c => c == 400 || c == 403 || c == 404
  | none => false

/-- The memo built at lines 160 and 273:
`f"Hermes Fulfillment // {letter_count} Letters"`. -/
def memoFor (letter_count : Nat) : String :=
  "Hermes Fulfillment // " ++ toString letter_count ++ " Letters"

/-- Deterministic model of `str(uuid.uuid4())` (line 243): the `c`-th key
drawn during a run. -/
def freshKey (c : Nat) : String :=
  "uuid-" ++ toString c

/-- The snapshot taken at lines 205-210: all letters with
`billing_paid == False`, in stored order. -/
def snapshotUnbilled (db : DB) : List Letter :=
  db.letters.filter (fun l => !l.billing_paid)

/-- `event_letter_map[event_id]` of lines 214-217: ids of the snapshot's
letters belonging to `eid`, in snapshot order. -/
def lmapD (db : DB) (eid : Nat) : List Nat :=
  ((snapshotUnbilled db).filter (fun l => l.event_id == eid)).map (fun l => l.id)

/-- `event_cost_map[event_id]` of lines 215-218: sum of `cost_cents or 0`
over the snapshot's letters belonging to `eid`. -/
def cmapD (db : DB) (eid : Nat) : Int :=
  ((snapshotUnbilled db).filter (fun l => l.event_id == eid)).foldl
    (fun a l => a + l.cost_cents.getD 0) 0

/-- The `event_billing` query of lines 221-229: event rows whose id has an
unbilled letter, in stored order (the query has no ORDER BY). -/
def billingRows (db : DB) : List Event :=
  db.events.filter (fun e => (snapshotUnbilled db).any (fun l => l.event_id == e.id))

/-- Effect on one letter of the bulk update of lines 258-263
(`WHERE Letter.id IN letter_ids SET billing_paid = true`). -/
def flagIf (letter_ids : List Nat) (l : Letter) : Letter :=
  if letter_ids.contains l.id then { l with billing_paid := true } else l

/-- Accumulated counters, errors, notifications and trace of the new-work
pass (the shared `events_processed` / `letters_billed` /
`total_amount_cents` / `errors` of lines 132-135, restricted to this
pass's contributions). -/
structure NSt where
  events_processed : Nat
  letters_billed : Nat
  total_amount_cents : Int
  errors : List ErrEntry
  notifs : List Notif
  trace : List NEvt
deriving DecidableEq, Repr

def initNSt : NSt := ⟨0, 0, 0, [], [], []⟩

/-- Everything one iteration of the per-event loop (lines 233-313)
contributes: the committed row (in its final state for this pass), the
letter ids durably flagged, the error entry, the notification, the trace
block, the counter deltas, and whether a uuid was drawn (line 243 runs
after the slug check, so skipped groups draw no key). -/
structure GroupOut where
  newDisb : Option Disbursement
  billedIds : List Nat
  errEntry : Option ErrEntry
  notif : Option Notif
  trace : List NEvt
  dEvents : Nat
  dLetters : Nat
  dAmount : Int
  usedKey : Bool
deriving Repr

/-- One iteration of the new-work loop body (lines 233-313) for the group
of event `g`, with the snapshot maps `lm` (letter ids per event) and `cm`
(cost per event) and the `c`-th fresh key available.

Branches, in source order:
* empty/null slug (lines 235-238): skip, record a non-retryable error;
* step 3a-3c (lines 246-268): stage the PENDING row and the flag update,
  then commit; a failed commit raises, is caught by the generic handler
  (lines 310-313) which rolls back and records an error — nothing durable,
  no gateway call;
* step 4 (lines 273-280): the gateway call;
* on success, step 5-6 (lines 283-302): complete the row, commit, notify,
  bump the counters;
* on `HCBAPIError` (lines 304-308): the row stays PENDING, letters stay
  flagged, a retryable error entry is recorded;
* on any other exception (lines 310-313): rollback (nothing staged after
  the 3c commit, so nothing durable changes), an error entry without a
  `will_retry` key. -/
def stepGroup (env : Env) (lm : Nat → List Nat) (cm : Nat → Int) (c : Nat)
    (g : Event) : GroupOut :=
  if slugFalsy g.org_slug then
    { newDisb := none, billedIds := [],
      errEntry := some ⟨none, some g.name, "Missing org_slug - cannot bill", some false⟩,
      notif := none, trace := [.skipGroup g.id],
      dEvents := 0, dLetters := 0, dAmount := 0, usedKey := false }
  else
    let lids := lm g.id
    let cnt := lids.length
    let cost := cm g.id
    let key := freshKey c
    let d0 : Disbursement := ⟨key, g.id, cost, cnt, .pending, none, none⟩
    if env.commitOk g.id then
      let call : GatewayCall := ⟨g.org_slug, env.fulfillment_org_slug, cost, memoFor cnt⟩
      match env.gw call with
      | .ok tid =>
        let d1 := { d0 with status := DStatus.completed, hcb_transfer_id := tid }
        { newDisb := some d1, billedIds := lids, errEntry := none,
          notif := some ⟨g.name, g.org_slug, cnt, cost, tid, key⟩,
          trace := [.commit3c d0 lids, .callNew d0 call, .commit5 d1],
          dEvents := 1, dLetters := cnt, dAmount := cost, usedKey := true }
      | .apiError e =>
        { newDisb := some d0, billedIds := lids,
          errEntry := some ⟨none, some g.name, e.message, some true⟩,
          notif := none, trace := [.commit3c d0 lids, .callNew d0 call],
          dEvents := 0, dLetters := 0, dAmount := 0, usedKey := true }
      | .exn m =>
        { newDisb := some d0, billedIds := lids,
          errEntry := some ⟨none, some g.name, m, none⟩,
          notif := none, trace := [.commit3c d0 lids, .callNew d0 call],
          dEvents := 0, dLetters := 0, dAmount := 0, usedKey := true }
    else
      { newDisb := none, billedIds := [],
        errEntry := some ⟨none, some g.name, "commit failed", none⟩,
        notif := none, trace := [.commit3cFail g.id],
        dEvents := 0, dLetters := 0, dAmount := 0, usedKey := true }

/-- Durable effect of one group iteration: the letters flagged by the 3c
commit and the committed disbursement row appended. -/
def applyOut (db : DB) (o : GroupOut) : DB :=
  { db with letters := db.letters.map (flagIf o.billedIds),
            disbursements := db.disbursements ++ o.newDisb.toList }

/-- Accumulation of one group iteration's counters, errors, notifications
and trace. -/
def accOut (st : NSt) (o : GroupOut) : NSt :=
  { events_processed := st.events_processed + o.dEvents,
    letters_billed := st.letters_billed + o.dLetters,
    total_amount_cents := st.total_amount_cents + o.dAmount,
    errors := st.errors ++ o.errEntry.toList,
    notifs := st.notifs ++ o.notif.toList,
    trace := st.trace ++ o.trace }

/-- The per-event loop of lines 233-313, threading the key counter, the
durable store and the run accumulators. -/
def newLoop (env : Env) (lm : Nat → List Nat) (cm : Nat → Int) :
    List Event → Nat → DB → NSt → DB × NSt
  | [], _, db, st => (db, st)
  | g :: gs, c, db, st =>
    let o := stepGroup env lm cm c g
    newLoop env lm cm gs (c + (if o.usedKey then 1 else 0)) (applyOut db o) (accOut st o)

/-- The new-work pass (`process_new_billables` in the specification's
naming; step 2 of `process_billing_disbursements`, lines 203-313): take
the snapshot, group it, and run the per-event loop over the `event_billing`
query result. -/
def processNewBillables (db : DB) (env : Env) : DB × NSt :=
  newLoop env (lmapD db) (cmapD db) (billingRows db) 0 db initNSt

/-- Accumulated counters, errors, notifications and trace of the recovery
pass. -/
structure RSt where
  events_processed : Nat
  letters_billed : Nat
  total_amount_cents : Int
  errors : List ErrEntry
  notifs : List Notif
  trace : List REvt
deriving DecidableEq, Repr

def initRSt : RSt := ⟨0, 0, 0, [], [], []⟩

/-- Per-iteration outputs of the recovery loop other than the row update. -/
structure ROut where
  errEntry : Option ErrEntry
  notif : Option Notif
  trace : List REvt
  dEvents : Nat
  dLetters : Nat
  dAmount : Int
deriving Repr

/-- The retry gateway call of lines 162-167: `event.org_slug` verbatim as
source, the configured fulfillment slug as destination, the stored amount,
and the memo rebuilt from the stored letter count (line 160). -/
def recCall (env : Env) (ev : Event) (d : Disbursement) : GatewayCall :=
  ⟨ev.org_slug, env.fulfillment_org_slug, d.amount_cents, memoFor d.letter_count⟩

/-- One iteration of the recovery loop (lines 146-201) on row `d`:
* non-PENDING rows are not in the loop's snapshot and pass through;
* event not found (lines 153-158): FAILED with "Event not found",
  committed;
* gateway success (lines 169-187): COMPLETED with the response id,
  committed, notified, counted;
* `HCBAPIError` (lines 189-198): FAILED and committed when the status code
  is permanent (400/403/404), otherwise left untouched; either way an
  error entry is appended;
* any other exception (lines 199-201): row untouched, error entry
  appended. -/
def reconOne (env : Env) (events : List Event) (d : Disbursement) :
    Disbursement × ROut :=
  if d.status = DStatus.pending then
    match events.find? (fun e => e.id == d.event_id) with
    | none =>
      let d1 := { d with status := DStatus.failed, error_message := some "Event not found" }
      (d1, ⟨none, none, [.commitR d1], 0, 0, 0⟩)
    | some ev =>
      let call := recCall env ev d
      match env.gw call with
      | .ok tid =>
        let d1 := { d with status := DStatus.completed, hcb_transfer_id := tid }
        (d1, ⟨none,
              some ⟨ev.name, ev.org_slug, d.letter_count, d.amount_cents, tid, d.idempotency_key⟩,
              [.retryCall d call, .commitR d1],
              1, d.letter_count, d.amount_cents⟩)
      | .apiError e =>
        if permanentError e then
          let d1 := { d with status := DStatus.failed, error_message := some e.message }
          (d1, ⟨some ⟨some d.event_id, none, e.message, none⟩, none,
                [.retryCall d call, .commitR d1], 0, 0, 0⟩)
        else
          (d, ⟨some ⟨some d.event_id, none, e.message, none⟩, none,
               [.retryCall d call], 0, 0, 0⟩)
      | .exn m =>
        (d, ⟨some ⟨some d.event_id, none, m, none⟩, none,
             [.retryCall d call], 0, 0, 0⟩)
  else
    (d, ⟨none, none, [], 0, 0, 0⟩)

/-- The row transformation performed by the recovery pass on one stored
disbursement. -/
def reconDisb (env : Env) (events : List Event) (d : Disbursement) : Disbursement :=
  (reconOne env events d).1

def accR (st : RSt) (o : ROut) : RSt :=
  { events_processed := st.events_processed + o.dEvents,
    letters_billed := st.letters_billed + o.dLetters,
    total_amount_cents := st.total_amount_cents + o.dAmount,
    errors := st.errors ++ o.errEntry.toList,
    notifs := st.notifs ++ o.notif.toList,
    trace := st.trace ++ o.trace }

/-- The recovery loop over the PENDING snapshot (lines 146-201), expressed
as a stateful traversal of the stored rows (rows not in the PENDING
snapshot pass through unchanged, matching the snapshot-then-iterate shape
of lines 139-146). -/
def reconLoop (env : Env) (events : List Event) :
    List Disbursement → RSt → List Disbursement × RSt
  | [], st => ([], st)
  | d :: ds, st =>
    let p := reconOne env events d
    let r := reconLoop env events ds (accR st p.2)
    (p.1 :: r.1, r.2)

/-- The recovery pass (`reconcile_pending` in the specification's naming;
step 1 of `process_billing_disbursements`, lines 138-201). -/
def reconcilePending (db : DB) (env : Env) : DB × RSt :=
  let r := reconLoop env db.events db.disbursements initRSt
  ({ db with disbursements := r.1 }, r.2)

/-- Overall result dict of `process_billing_disbursements` (lines 128 and
320-325), plus the recorded notifications and the tagged run trace. -/
structure RunResult where
  events_processed : Nat
  letters_billed : Nat
  total_amount_cents : Int
  errors : List ErrEntry
  notifs : List Notif
  trace : List (Sum REvt NEvt)
  skipped : Bool
deriving DecidableEq, Repr

/-- `process_billing_disbursements` (lines 104-325): the API-key guard
(lines 126-128), then the recovery pass, then the new-work pass over the
recovered store, with shared accumulators. -/
def process_billing_disbursements (db : DB) (env : Env) : DB × RunResult :=
  if env.hcb_api_key_configured then
    let r := reconcilePending db env
    let n := processNewBillables r.1 env
    (n.1,
     { events_processed := r.2.events_processed + n.2.events_processed,
       letters_billed := r.2.letters_billed + n.2.letters_billed,
       total_amount_cents := r.2.total_amount_cents + n.2.total_amount_cents,
       errors := r.2.errors ++ n.2.errors,
       notifs := r.2.notifs ++ n.2.notifs,
       trace := r.2.trace.map Sum.inl ++ n.2.trace.map Sum.inr,
       skipped := false })
  else
    (db, ⟨0, 0, 0, [], [], [], true⟩)

/-- The gateway call the new-work pass makes for event row `e` over the
snapshot of `db` (used to phrase hypotheses about the gateway oracle). -/
def mkCallFor (db : DB) (env : Env) (e : Event) : GatewayCall :=
  ⟨e.org_slug, env.fulfillment_org_slug, cmapD db e.id, memoFor (lmapD db e.id).length⟩

/-- Substring test on character lists (used to state "the memo embeds the
idempotency key"). -/
def hasPrefixL : List Char → List Char → Bool
  | [], _ => true
  | _ :: _, [] => false
  | a :: as, b :: bs => a == b && hasPrefixL as bs

/-- `hasSubL needle hay` : does `needle` occur contiguously inside `hay`? -/
def hasSubL (needle : List Char) : List Char → Bool
  | [] => needle.isEmpty
  | h :: t => hasPrefixL needle (h :: t) || hasSubL needle t

/-- String `needle` occurs as a substring of `hay`. -/
def strEmbeds (needle hay : String) : Bool :=
  hasSubL needle.data hay.data

/-- The PENDING row staged at step 3a (lines 247-253) for event `g` with the
`k`-th fresh key, over snapshot maps `lm`/`cm`. -/
def pendingRow (lm : Nat → List Nat) (cm : Nat → Int) (k : Nat) (g : Event) : Disbursement :=
  ⟨freshKey k, g.id, cm g.id, (lm g.id).length, .pending, none, none⟩

/-- Ordering property of a new-work trace: every gateway call for a row `d`
is preceded by the step-3c commit that durably wrote that same row (still
PENDING) together with its flagged letter ids. -/
def callPrecededByCommit (t : List NEvt) : Prop :=
  ∀ (i : Nat) d c, t[i]? = some (NEvt.callNew d c) →
    ∃ j, j < i ∧ ∃ lids, t[j]? = some (NEvt.commit3c d lids) ∧ d.status = DStatus.pending

/-! ### Branch equations for `stepGroup` -/

theorem stepGroup_skip (env : Env) (lm : Nat → List Nat) (cm : Nat → Int) (k : Nat)
    (g : Event) (hs : slugFalsy g.org_slug = true) :
    stepGroup env lm cm k g =
      { newDisb := none, billedIds := [],
        errEntry := some ⟨none, some g.name, "Missing org_slug - cannot bill", some false⟩,
        notif := none, trace := [.skipGroup g.id],
        dEvents := 0, dLetters := 0, dAmount := 0, usedKey := false } := by
  simp [stepGroup, hs]

theorem stepGroup_commitFail (env : Env) (lm : Nat → List Nat) (cm : Nat → Int) (k : Nat)
    (g : Event) (hs : slugFalsy g.org_slug = false) (hc : env.commitOk g.id = false) :
    stepGroup env lm cm k g =
      { newDisb := none, billedIds := [],
        errEntry := some ⟨none, some g.name, "commit failed", none⟩,
        notif := none, trace := [.commit3cFail g.id],
        dEvents := 0, dLetters := 0, dAmount := 0, usedKey := true } := by
  simp [stepGroup, hs, hc]

theorem stepGroup_gwOk (env : Env) (lm : Nat → List Nat) (cm : Nat → Int) (k : Nat)
    (g : Event) (tid : Option String)
    (hs : slugFalsy g.org_slug = false) (hc : env.commitOk g.id = true)
    (hg : env.gw ⟨g.org_slug, env.fulfillment_org_slug, cm g.id, memoFor (lm g.id).length⟩
          = .ok tid) :
    stepGroup env lm cm k g =
      { newDisb := some { pendingRow lm cm k g with
                          status := DStatus.completed, hcb_transfer_id := tid },
        billedIds := lm g.id, errEntry := none,
        notif := some ⟨g.name, g.org_slug, (lm g.id).length, cm g.id, tid, freshKey k⟩,
        trace := [.commit3c (pendingRow lm cm k g) (lm g.id),
                  .callNew (pendingRow lm cm k g)
                    ⟨g.org_slug, env.fulfillment_org_slug, cm g.id, memoFor (lm g.id).length⟩,
                  .commit5 { pendingRow lm cm k g with
                             status := DStatus.completed, hcb_transfer_id := tid }],
        dEvents := 1, dLetters := (lm g.id).length, dAmount := cm g.id, usedKey := true } := by
  simp [stepGroup, hs, hc, hg, pendingRow]

theorem stepGroup_gwErr (env : Env) (lm : Nat → List Nat) (cm : Nat → Int) (k : Nat)
    (g : Event) (e : HCBError)
    (hs : slugFalsy g.org_slug = false) (hc : env.commitOk g.id = true)
    (hg : env.gw ⟨g.org_slug, env.fulfillment_org_slug, cm g.id, memoFor (lm g.id).length⟩
          = .apiError e) :
    stepGroup env lm cm k g =
      { newDisb := some (pendingRow lm cm k g),
        billedIds := lm g.id,
        errEntry := some ⟨none, some g.name, e.message, some true⟩,
        notif := none,
        trace := [.commit3c (pendingRow lm cm k g) (lm g.id),
                  .callNew (pendingRow lm cm k g)
                    ⟨g.org_slug, env.fulfillment_org_slug, cm g.id, memoFor (lm g.id).length⟩],
        dEvents := 0, dLetters := 0, dAmount := 0, usedKey := true } := by
  simp [stepGroup, hs, hc, hg, pendingRow]

theorem stepGroup_gwExn (env : Env) (lm : Nat → List Nat) (cm : Nat → Int) (k : Nat)
    (g : Event) (m : String)
    (hs : slugFalsy g.org_slug = false) (hc : env.commitOk g.id = true)
    (hg : env.gw ⟨g.org_slug, env.fulfillment_org_slug, cm g.id, memoFor (lm g.id).length⟩
          = .exn m) :
    stepGroup env lm cm k g =
      { newDisb := some (pendingRow lm cm k g),
        billedIds := lm g.id,
        errEntry := some ⟨none, some g.name, m, none⟩,
        notif := none,
        trace := [.commit3c (pendingRow lm cm k g) (lm g.id),
                  .callNew (pendingRow lm cm k g)
                    ⟨g.org_slug, env.fulfillment_org_slug, cm g.id, memoFor (lm g.id).length⟩],
        dEvents := 0, dLetters := 0, dAmount := 0, usedKey := true } := by
  simp [stepGroup, hs, hc, hg, pendingRow]

/-! ### Derived facts about one group iteration -/

/-- A gateway call happens in a group iteration only after the slug check
passed and the step-3c commit succeeded, and it is the call for that
group's freshly committed PENDING row. -/
theorem stepGroup_callNew_mem (env : Env) (lm : Nat → List Nat) (cm : Nat → Int)
    (k : Nat) (g : Event) (d : Disbursement) (c : GatewayCall)
    (h : NEvt.callNew d c ∈ (stepGroup env lm cm k g).trace) :
    slugFalsy g.org_slug = false ∧ env.commitOk g.id = true ∧
    d = pendingRow lm cm k g ∧
    c = ⟨g.org_slug, env.fulfillment_org_slug, cm g.id, memoFor (lm g.id).length⟩ := by
  cases hs : slugFalsy g.org_slug with
  | true => rw [stepGroup_skip _ _ _ _ _ hs] at h; simp at h
  | false =>
    cases hc : env.commitOk g.id with
    | false => rw [stepGroup_commitFail _ _ _ _ _ hs hc] at h; simp at h
    | true =>
      cases hgw : env.gw ⟨g.org_slug, env.fulfillment_org_slug, cm g.id,
          memoFor (lm g.id).length⟩ with
      | ok tid =>
        rw [stepGroup_gwOk _ _ _ _ _ _ hs hc hgw] at h
        simp at h
        exact ⟨rfl, rfl, h.1, h.2⟩
      | apiError e =>
        rw [stepGroup_gwErr _ _ _ _ _ _ hs hc hgw] at h
        simp at h
        exact ⟨rfl, rfl, h.1, h.2⟩
      | exn m =>
        rw [stepGroup_gwExn _ _ _ _ _ _ hs hc hgw] at h
        simp at h
        exact ⟨rfl, rfl, h.1, h.2⟩

/-- A disbursement row is committed by a group iteration only when the slug
check passed and the step-3c commit succeeded; the row belongs to that
group and is never FAILED in this pass. -/
theorem stepGroup_newDisb_some (env : Env) (lm : Nat → List Nat) (cm : Nat → Int)
    (k : Nat) (g : Event) (dd : Disbursement)
    (h : (stepGroup env lm cm k g).newDisb = some dd) :
    slugFalsy g.org_slug = false ∧ env.commitOk g.id = true ∧
    dd.event_id = g.id ∧ dd.idempotency_key = freshKey k ∧
    dd.amount_cents = cm g.id ∧ dd.letter_count = (lm g.id).length ∧
    dd.status ≠ DStatus.failed := by
  cases hs : slugFalsy g.org_slug with
  | true => rw [stepGroup_skip _ _ _ _ _ hs] at h; simp at h
  | false =>
    cases hc : env.commitOk g.id with
    | false => rw [stepGroup_commitFail _ _ _ _ _ hs hc] at h; simp at h
    | true =>
      cases hgw : env.gw ⟨g.org_slug, env.fulfillment_org_slug, cm g.id,
          memoFor (lm g.id).length⟩ with
      | ok tid =>
        rw [stepGroup_gwOk _ _ _ _ _ _ hs hc hgw] at h
        simp at h
        subst h; simp [pendingRow]
      | apiError e =>
        rw [stepGroup_gwErr _ _ _ _ _ _ hs hc hgw] at h
        simp at h
        subst h; simp [pendingRow]
      | exn m =>
        rw [stepGroup_gwExn _ _ _ _ _ _ hs hc hgw] at h
        simp at h
        subst h; simp [pendingRow]

/-- Letters are flagged by a group iteration only when the slug check passed
and the step-3c commit succeeded, and only the group's own snapshot letter
ids are flagged. -/
theorem stepGroup_billed_mem (env : Env) (lm : Nat → List Nat) (cm : Nat → Int)
    (k : Nat) (g : Event) (x : Nat)
    (h : x ∈ (stepGroup env lm cm k g).billedIds) :
    slugFalsy g.org_slug = false ∧ env.commitOk g.id = true ∧ x ∈ lm g.id := by
  cases hs : slugFalsy g.org_slug with
  | true => rw [stepGroup_skip _ _ _ _ _ hs] at h; simp at h
  | false =>
    cases hc : env.commitOk g.id with
    | false => rw [stepGroup_commitFail _ _ _ _ _ hs hc] at h; simp at h
    | true =>
      cases hgw : env.gw ⟨g.org_slug, env.fulfillment_org_slug, cm g.id,
          memoFor (lm g.id).length⟩ with
      | ok tid => rw [stepGroup_gwOk _ _ _ _ _ _ hs hc hgw] at h; exact ⟨rfl, rfl, h⟩
      | apiError e => rw [stepGroup_gwErr _ _ _ _ _ _ hs hc hgw] at h; exact ⟨rfl, rfl, h⟩
      | exn m => rw [stepGroup_gwExn _ _ _ _ _ _ hs hc hgw] at h; exact ⟨rfl, rfl, h⟩

/-- When the slug check passes and the step-3c commit succeeds, exactly the
group's snapshot letter ids are durably flagged, whatever the gateway
does. -/
theorem stepGroup_billedIds_eq (env : Env) (lm : Nat → List Nat) (cm : Nat → Int)
    (k : Nat) (g : Event)
    (hs : slugFalsy g.org_slug = false) (hc : env.commitOk g.id = true) :
    (stepGroup env lm cm k g).billedIds = lm g.id := by
  cases hgw : env.gw ⟨g.org_slug, env.fulfillment_org_slug, cm g.id,
      memoFor (lm g.id).length⟩ with
  | ok tid => rw [stepGroup_gwOk _ _ _ _ _ _ hs hc hgw]
  | apiError e => rw [stepGroup_gwErr _ _ _ _ _ _ hs hc hgw]
  | exn m => rw [stepGroup_gwExn _ _ _ _ _ _ hs hc hgw]

/-- Every error entry recorded by a group iteration names that group's
event. -/
theorem stepGroup_err_some (env : Env) (lm : Nat → List Nat) (cm : Nat → Int)
    (k : Nat) (g : Event) (er : ErrEntry)
    (h : (stepGroup env lm cm k g).errEntry = some er) :
    er.event = some g.name := by
  cases hs : slugFalsy g.org_slug with
  | true => rw [stepGroup_skip _ _ _ _ _ hs] at h; simp at h; subst h; rfl
  | false =>
    cases hc : env.commitOk g.id with
    | false => rw [stepGroup_commitFail _ _ _ _ _ hs hc] at h; simp at h; subst h; rfl
    | true =>
      cases hgw : env.gw ⟨g.org_slug, env.fulfillment_org_slug, cm g.id,
          memoFor (lm g.id).length⟩ with
      | ok tid => rw [stepGroup_gwOk _ _ _ _ _ _ hs hc hgw] at h; simp at h
      | apiError e => rw [stepGroup_gwErr _ _ _ _ _ _ hs hc hgw] at h; simp at h; subst h; rfl
      | exn m => rw [stepGroup_gwExn _ _ _ _ _ _ hs hc hgw] at h; simp at h; subst h; rfl

/-- Within one group iteration's trace block, the gateway call is preceded
by the step-3c commit of the same (still PENDING) row. -/
theorem stepGroup_ordered (env : Env) (lm : Nat → List Nat) (cm : Nat → Int)
    (k : Nat) (g : Event) :
    callPrecededByCommit (stepGroup env lm cm k g).trace := by
  have blk : ∀ (d0 d1 : Disbursement) (lids : List Nat) (cc : GatewayCall)
      (rest : List NEvt), d0.status = DStatus.pending →
      (rest = [] ∨ rest = [NEvt.commit5 d1]) →
      callPrecededByCommit ([NEvt.commit3c d0 lids, NEvt.callNew d0 cc] ++ rest) := by
    intro d0 d1 lids cc rest hp hr i d c h
    match i with
    | 0 => simp at h
    | 1 =>
      simp at h
      refine ⟨0, by omega, lids, ?_, ?_⟩
      · simp [h.1]
      · rw [← h.1]; exact hp
    | (n + 2) =>
      rcases hr with hr | hr <;> subst hr
      · simp at h
      · match n with
        | 0 => simp at h
        | m + 1 => simp at h
  cases hs : slugFalsy g.org_slug with
  | true =>
    rw [stepGroup_skip _ _ _ _ _ hs]
    intro i d c h
    match i with
    | 0 => simp at h
    | (n + 1) => simp at h
  | false =>
    cases hc : env.commitOk g.id with
    | false =>
      rw [stepGroup_commitFail _ _ _ _ _ hs hc]
      intro i d c h
      match i with
      | 0 => simp at h
      | (n + 1) => simp at h
    | true =>
      cases hgw : env.gw ⟨g.org_slug, env.fulfillment_org_slug, cm g.id,
          memoFor (lm g.id).length⟩ with
      | ok tid =>
        rw [stepGroup_gwOk _ _ _ _ _ _ hs hc hgw]
        exact blk _ _ _ _ _ rfl (Or.inr rfl)
      | apiError e =>
        rw [stepGroup_gwErr _ _ _ _ _ _ hs hc hgw]
        exact blk _ (pendingRow lm cm k g) _ _ _ rfl (Or.inl rfl)
      | exn m =>
        rw [stepGroup_gwExn _ _ _ _ _ _ hs hc hgw]
        exact blk _ (pendingRow lm cm k g) _ _ _ rfl (Or.inl rfl)

/-! ### Structural lemmas about the new-work loop -/

theorem accOut_trace (st : NSt) (o : GroupOut) : (accOut st o).trace = st.trace ++ o.trace := rfl

theorem accOut_errors (st : NSt) (o : GroupOut) :
    (accOut st o).errors = st.errors ++ o.errEntry.toList := rfl

theorem applyOut_letters (db : DB) (o : GroupOut) :
    (applyOut db o).letters = db.letters.map (flagIf o.billedIds) := rfl

theorem applyOut_disb (db : DB) (o : GroupOut) :
    (applyOut db o).disbursements = db.disbursements ++ o.newDisb.toList := rfl

theorem newLoop_nil (env : Env) (lm : Nat → List Nat) (cm : Nat → Int)
    (c : Nat) (db : DB) (st : NSt) : newLoop env lm cm [] c db st = (db, st) := rfl

theorem newLoop_cons (env : Env) (lm : Nat → List Nat) (cm : Nat → Int)
    (g : Event) (gs : List Event) (c : Nat) (db : DB) (st : NSt) :
    newLoop env lm cm (g :: gs) c db st =
      newLoop env lm cm gs (c + (if (stepGroup env lm cm c g).usedKey then 1 else 0))
        (applyOut db (stepGroup env lm cm c g)) (accOut st (stepGroup env lm cm c g)) := rfl

/-- Every trace event of the loop either was already accumulated or belongs
to some group iteration of the processed rows. -/
theorem newLoop_trace_mem (env : Env) (lm : Nat → List Nat) (cm : Nat → Int) :
    ∀ (rows : List Event) (c : Nat) (db : DB) (st : NSt) (evt : NEvt),
      evt ∈ (newLoop env lm cm rows c db st).2.trace →
      evt ∈ st.trace ∨ ∃ k g, g ∈ rows ∧ evt ∈ (stepGroup env lm cm k g).trace := by
  intro rows
  induction rows with
  | nil => intro c db st evt h; exact Or.inl h
  | cons g gs ih =>
    intro c db st evt h
    rw [newLoop_cons] at h
    rcases ih _ _ _ _ h with h1 | ⟨k, g', hg', hevt⟩
    · rw [accOut_trace] at h1
      rcases List.mem_append.mp h1 with h2 | h2
      · exact Or.inl h2
      · exact Or.inr ⟨c, g, List.mem_cons_self g gs, h2⟩
    · exact Or.inr ⟨k, g', List.mem_cons_of_mem g hg', hevt⟩

/-- Every error entry of the loop either was already accumulated or was
recorded by some group iteration of the processed rows. -/
theorem newLoop_errors_mem (env : Env) (lm : Nat → List Nat) (cm : Nat → Int) :
    ∀ (rows : List Event) (c : Nat) (db : DB) (st : NSt) (er : ErrEntry),
      er ∈ (newLoop env lm cm rows c db st).2.errors →
      er ∈ st.errors ∨ ∃ k g, g ∈ rows ∧ (stepGroup env lm cm k g).errEntry = some er := by
  intro rows
  induction rows with
  | nil => intro c db st er h; exact Or.inl h
  | cons g gs ih =>
    intro c db st er h
    rw [newLoop_cons] at h
    rcases ih _ _ _ _ h with h1 | ⟨k, g', hg', hevt⟩
    · rw [accOut_errors] at h1
      rcases List.mem_append.mp h1 with h2 | h2
      · exact Or.inl h2
      · refine Or.inr ⟨c, g, List.mem_cons_self g gs, ?_⟩
        cases he : (stepGroup env lm cm c g).errEntry with
        | none => rw [he] at h2; simp at h2
        | some er' => rw [he] at h2; simp at h2; rw [h2]
    · exact Or.inr ⟨k, g', List.mem_cons_of_mem g hg', hevt⟩

/-- The loop only appends to the error list. -/
theorem newLoop_errors_grow (env : Env) (lm : Nat → List Nat) (cm : Nat → Int) :
    ∀ (rows : List Event) (c : Nat) (db : DB) (st : NSt),
      ∃ suff, (newLoop env lm cm rows c db st).2.errors = st.errors ++ suff := by
  intro rows
  induction rows with
  | nil => intro c db st; exact ⟨[], by simp [newLoop_nil]⟩
  | cons g gs ih =>
    intro c db st
    rw [newLoop_cons]
    obtain ⟨suff, hs⟩ := ih (c + (if (stepGroup env lm cm c g).usedKey then 1 else 0))
      (applyOut db (stepGroup env lm cm c g)) (accOut st (stepGroup env lm cm c g))
    exact ⟨(stepGroup env lm cm c g).errEntry.toList ++ suff, by
      rw [hs, accOut_errors, List.append_assoc]⟩

/-- The loop only appends disbursement rows, and every appended row was
committed by some group iteration of the processed rows. -/
theorem newLoop_disb (env : Env) (lm : Nat → List Nat) (cm : Nat → Int) :
    ∀ (rows : List Event) (c : Nat) (db : DB) (st : NSt),
      ∃ tail, (newLoop env lm cm rows c db st).1.disbursements = db.disbursements ++ tail ∧
        ∀ dd ∈ tail, ∃ k g, g ∈ rows ∧ (stepGroup env lm cm k g).newDisb = some dd := by
  intro rows
  induction rows with
  | nil => intro c db st; exact ⟨[], by simp [newLoop_nil], by simp⟩
  | cons g gs ih =>
    intro c db st
    rw [newLoop_cons]
    obtain ⟨tail, ht, hm⟩ := ih (c + (if (stepGroup env lm cm c g).usedKey then 1 else 0))
      (applyOut db (stepGroup env lm cm c g)) (accOut st (stepGroup env lm cm c g))
    refine ⟨(stepGroup env lm cm c g).newDisb.toList ++ tail, ?_, ?_⟩
    · rw [ht, applyOut_disb, List.append_assoc]
    · intro dd hdd
      rcases List.mem_append.mp hdd with h2 | h2
      · refine ⟨c, g, List.mem_cons_self g gs, ?_⟩
        cases he : (stepGroup env lm cm c g).newDisb with
        | none => rw [he] at h2; simp at h2
        | some dd' => rw [he] at h2; simp at h2; rw [h2]
      · obtain ⟨k, g', hg', hd⟩ := hm dd h2
        exact ⟨k, g', List.mem_cons_of_mem g hg', hd⟩

theorem Letter.extEq (a b : Letter) (h1 : a.id = b.id) (h2 : a.event_id = b.event_id)
    (h3 : a.cost_cents = b.cost_cents) (h4 : a.billing_paid = b.billing_paid) : a = b := by
  cases a; cases b; simp_all

theorem flagIf_id (s : List Nat) (l : Letter) : (flagIf s l).id = l.id := by
  unfold flagIf; split <;> rfl

theorem flagIf_event (s : List Nat) (l : Letter) : (flagIf s l).event_id = l.event_id := by
  unfold flagIf; split <;> rfl

theorem flagIf_cost (s : List Nat) (l : Letter) : (flagIf s l).cost_cents = l.cost_cents := by
  unfold flagIf; split <;> rfl

theorem flagIf_mono (s : List Nat) (l : Letter) (h : l.billing_paid = true) :
    (flagIf s l).billing_paid = true := by
  unfold flagIf; split <;> simp [h]

theorem flagIf_paid (s : List Nat) (l : Letter) (h : (flagIf s l).billing_paid = true) :
    l.billing_paid = true ∨ l.id ∈ s := by
  unfold flagIf at h
  split at h
  · next hc => exact Or.inr (List.elem_iff.mp hc)
  · exact Or.inl h

theorem flagIf_sets (s : List Nat) (l : Letter) (h : l.id ∈ s) :
    (flagIf s l).billing_paid = true := by
  unfold flagIf
  rw [if_pos (List.elem_iff.mpr h)]

/-- Master description of the loop's effect on the letters table: it is a
pointwise update that only ever sets the billed flag, only for letter ids
flagged by some group iteration, and surely for the snapshot ids of every
group whose slug check passed and whose step-3c commit succeeded. -/
theorem newLoop_letters (env : Env) (lm : Nat → List Nat) (cm : Nat → Int) :
    ∀ (rows : List Event) (c : Nat) (db : DB) (st : NSt),
      ∃ F : Letter → Letter,
        (newLoop env lm cm rows c db st).1.letters = db.letters.map F ∧
        (∀ l, (F l).id = l.id ∧ (F l).event_id = l.event_id ∧ (F l).cost_cents = l.cost_cents) ∧
        (∀ l, l.billing_paid = true → (F l).billing_paid = true) ∧
        (∀ l, (F l).billing_paid = true →
          l.billing_paid = true ∨ ∃ k g, g ∈ rows ∧ l.id ∈ (stepGroup env lm cm k g).billedIds) ∧
        (∀ g ∈ rows, slugFalsy g.org_slug = false → env.commitOk g.id = true →
          ∀ l, l.id ∈ lm g.id → (F l).billing_paid = true) := by
  intro rows
  induction rows with
  | nil =>
    intro c db st
    refine ⟨id, by simp [newLoop_nil], by simp, by simp, ?_, by simp⟩
    intro l h; exact Or.inl h
  | cons g gs ih =>
    intro c db st
    rw [newLoop_cons]
    obtain ⟨F', hmap, hfields, hmono, hconv, hpos⟩ :=
      ih (c + (if (stepGroup env lm cm c g).usedKey then 1 else 0))
        (applyOut db (stepGroup env lm cm c g)) (accOut st (stepGroup env lm cm c g))
    refine ⟨fun l => F' (flagIf (stepGroup env lm cm c g).billedIds l), ?_, ?_, ?_, ?_, ?_⟩
    · rw [hmap, applyOut_letters, List.map_map]; rfl
    · intro l
      obtain ⟨h1, h2, h3⟩ := hfields (flagIf (stepGroup env lm cm c g).billedIds l)
      exact ⟨by rw [h1, flagIf_id], by rw [h2, flagIf_event], by rw [h3, flagIf_cost]⟩
    · intro l h
      exact hmono _ (flagIf_mono _ _ h)
    · intro l h
      rcases hconv _ h with h1 | ⟨k, g', hg', hmem⟩
      · rcases flagIf_paid _ _ h1 with h2 | h2
        · exact Or.inl h2
        · exact Or.inr ⟨c, g, List.mem_cons_self g gs, h2⟩
      · rw [flagIf_id] at hmem
        exact Or.inr ⟨k, g', List.mem_cons_of_mem g hg', hmem⟩
    · intro g0 hg0 hs0 hc0 l hl
      rcases List.mem_cons.mp hg0 with h0 | h0
      · subst h0
        apply hmono
        apply flagIf_sets
        rw [stepGroup_billedIds_eq env lm cm c g0 hs0 hc0]
        exact hl
      · have := hpos g0 h0 hs0 hc0 (flagIf (stepGroup env lm cm c g).billedIds l)
        rw [flagIf_id] at this
        exact this hl

/-- Mapping a table transformation that fixes the rows a predicate selects
and preserves the predicate leaves the selected rows unchanged. -/
theorem filter_map_fix (p : Letter → Bool) (F : Letter → Letter)
    (hp : ∀ l, p (F l) = p l) :
    ∀ (L : List Letter), (∀ l ∈ L, p l = true → F l = l) →
      (L.map F).filter p = L.filter p := by
  intro L
  induction L with
  | nil => intro _; simp
  | cons l t iht =>
    intro hfix
    have iht' := iht (fun x hx => hfix x (List.mem_cons_of_mem l hx))
    cases hl : p l with
    | true =>
      simp only [List.map_cons, List.filter_cons, hp, hl, hfix l (List.mem_cons_self l t) hl]
      rw [iht']
    | false =>
      simp only [List.map_cons, List.filter_cons, hp, hl]
      exact iht'

/-- If every processed group with event id `eid` was skipped or had its
step-3c commit fail, then the letters of event `eid` come out of the
new-work pass exactly as they went in (in particular never flagged). -/
theorem newBillables_letters_filter (db : DB) (env : Env) (eid : Nat)
    (hlids : (db.letters.map (fun l => l.id)).Nodup)
    (hno : ∀ g ∈ billingRows db, g.id = eid →
      slugFalsy g.org_slug = true ∨ env.commitOk g.id = false) :
    (processNewBillables db env).1.letters.filter (fun l => l.event_id == eid) =
      db.letters.filter (fun l => l.event_id == eid) := by
  obtain ⟨F, hmap, hfields, hmono, hconv, _⟩ :=
    newLoop_letters env (lmapD db) (cmapD db) (billingRows db) 0 db initNSt
  show (newLoop env (lmapD db) (cmapD db) (billingRows db) 0 db initNSt).1.letters.filter _ = _
  rw [hmap]
  apply filter_map_fix
  · intro l; simp only [(hfields l).2.1]
  · intro l hl hp
    have hev : l.event_id = eid := by simpa using hp
    have hpaid : (F l).billing_paid = l.billing_paid := by
      cases hb : l.billing_paid with
      | true => rw [hmono l hb]
      | false =>
        cases hFb : (F l).billing_paid with
        | false => rfl
        | true =>
          exfalso
          rcases hconv l hFb with h1 | ⟨k, g, hg, hmem⟩
          · rw [hb] at h1; exact Bool.false_ne_true h1
          · obtain ⟨hs, hc, hin⟩ := stepGroup_billed_mem env (lmapD db) (cmapD db) k g l.id hmem
            have hin' : ∃ l2, (l2 ∈ db.letters ∧ l2.event_id = g.id ∧
                l2.billing_paid = false) ∧ l2.id = l.id := by
              simpa [lmapD, snapshotUnbilled, List.mem_filter, List.mem_map,
                Bool.not_eq_true'] using hin
            obtain ⟨l2, ⟨hl2, hl2e, _⟩, hl2id⟩ := hin'
            have hll2 : l2 = l := List.inj_on_of_nodup_map hlids hl2 hl hl2id
            rw [hll2] at hl2e
            rw [hev] at hl2e
            rcases hno g hg hl2e.symm with hbad | hbad
            · rw [hs] at hbad; exact absurd hbad (by decide)
            · rw [hc] at hbad; exact absurd hbad (by decide)
    exact Letter.extEq _ _ ((hfields l).1) ((hfields l).2.1) ((hfields l).2.2) hpaid

/-- After the new-work pass, every letter of a processed group whose slug
check passed and whose step-3c commit succeeded carries the billed flag. -/
theorem newBillables_letters_billed (db : DB) (env : Env) (e : Event)
    (he : e ∈ billingRows db) (hs : slugFalsy e.org_slug = false)
    (hc : env.commitOk e.id = true) :
    ∀ l ∈ (processNewBillables db env).1.letters, l.event_id = e.id →
      l.billing_paid = true := by
  obtain ⟨F, hmap, hfields, hmono, _, hpos⟩ :=
    newLoop_letters env (lmapD db) (cmapD db) (billingRows db) 0 db initNSt
  intro l hl hev
  replace hl : l ∈ db.letters.map F := by rw [← hmap]; exact hl
  obtain ⟨l0, hl0, rfl⟩ := List.mem_map.mp hl
  have hev0 : l0.event_id = e.id := by rw [← (hfields l0).2.1]; exact hev
  cases hb : l0.billing_paid with
  | true => exact hmono l0 hb
  | false =>
    have hin : l0.id ∈ lmapD db e.id := by
      have hx : ∃ l2, (l2 ∈ db.letters ∧ l2.event_id = e.id ∧
          l2.billing_paid = false) ∧ l2.id = l0.id := ⟨l0, ⟨hl0, hev0, hb⟩, rfl⟩
      simpa [lmapD, snapshotUnbilled, List.mem_filter, List.mem_map,
        Bool.not_eq_true'] using hx
    exact hpos e he hs hc l0 hin

/-- A list of length one whose sole member is known is that singleton. -/
theorem eq_singleton_of_all {α : Type} (L : List α) (a : α)
    (hlen : L.length = 1) (hall : ∀ x ∈ L, x = a) : L = [a] := by
  match L, hlen with
  | [x], _ => rw [hall x (by simp)]

/-- In a row list whose images under `f` are distinct, filtering for the
image of a member yields exactly that member. -/
theorem filter_beq_singleton (rows : List Event) (e : Event) (f : Event → Nat)
    (hn : (rows.map f).Nodup) (he : e ∈ rows) :
    rows.filter (fun g => f g == f e) = [e] := by
  apply eq_singleton_of_all
  · rw [← List.countP_eq_length_filter]
    have h1 : (rows.map f).count (f e) = 1 :=
      List.count_eq_one_of_mem hn (List.mem_map_of_mem f he)
    rw [List.count] at h1
    rw [List.countP_map] at h1
    exact h1
  · intro x hx
    have hx1 := List.mem_filter.mp hx
    have hx2 : f x = f e := by simpa using hx1.2
    exact List.inj_on_of_nodup_map hn hx1.1 he hx2

/-- String version of `filter_beq_singleton`. -/
theorem filter_beq_singleton_str (rows : List Event) (e : Event) (f : Event → String)
    (hn : (rows.map f).Nodup) (he : e ∈ rows) :
    rows.filter (fun g => f g == f e) = [e] := by
  apply eq_singleton_of_all
  · rw [← List.countP_eq_length_filter]
    have h1 : (rows.map f).count (f e) = 1 :=
      List.count_eq_one_of_mem hn (List.mem_map_of_mem f he)
    rw [List.count] at h1
    rw [List.countP_map] at h1
    exact h1
  · intro x hx
    have hx1 := List.mem_filter.mp hx
    have hx2 : f x = f e := by simpa using hx1.2
    exact List.inj_on_of_nodup_map hn hx1.1 he hx2

/-- Group isolation, loop level: when every processed group passes the slug
check and commits, and the gateway errors exactly on the calls of the one
group whose event id is `estar.id` and succeeds on every other call, the
loop records exactly one retryable error entry per occurrence of that id,
counts every other group as processed, and commits a COMPLETED row for
every other group. -/
theorem newLoop_isolation (env : Env) (lm : Nat → List Nat) (cm : Nat → Int)
    (estar : Event) (err : HCBError)
    (hgwe : env.gw ⟨estar.org_slug, env.fulfillment_org_slug, cm estar.id,
        memoFor (lm estar.id).length⟩ = .apiError err) :
    ∀ (rows : List Event) (c : Nat) (db : DB) (st : NSt),
      (∀ g ∈ rows, slugFalsy g.org_slug = false) →
      (∀ g ∈ rows, env.commitOk g.id = true) →
      (∀ g ∈ rows, g.id ≠ estar.id →
        ∃ t, env.gw ⟨g.org_slug, env.fulfillment_org_slug, cm g.id,
          memoFor (lm g.id).length⟩ = .ok t) →
      (∀ g ∈ rows, g.id = estar.id → g = estar) →
      (newLoop env lm cm rows c db st).2.errors
          = st.errors ++ (rows.filter (fun g => g.id == estar.id)).map
              (fun _ => (⟨none, some estar.name, err.message, some true⟩ : ErrEntry)) ∧
      (newLoop env lm cm rows c db st).2.events_processed
          = st.events_processed + rows.countP (fun g => !(g.id == estar.id)) ∧
      ∃ tail, (newLoop env lm cm rows c db st).1.disbursements = db.disbursements ++ tail ∧
        ∀ g ∈ rows, g.id ≠ estar.id →
          ∃ dd ∈ tail, dd.event_id = g.id ∧ dd.status = DStatus.completed := by
  intro rows
  induction rows with
  | nil =>
    intro c db st _ _ _ _
    exact ⟨by simp [newLoop_nil], by simp [newLoop_nil],
      [], by simp [newLoop_nil], by simp⟩
  | cons g gs ih =>
    intro c db st hA hB hC hD
    have hAg := hA g (List.mem_cons_self g gs)
    have hBg := hB g (List.mem_cons_self g gs)
    have hA' := fun g' hg' => hA g' (List.mem_cons_of_mem g hg')
    have hB' := fun g' hg' => hB g' (List.mem_cons_of_mem g hg')
    have hC' := fun g' hg' => hC g' (List.mem_cons_of_mem g hg')
    have hD' := fun g' hg' => hD g' (List.mem_cons_of_mem g hg')
    rw [newLoop_cons]
    by_cases hid : g.id = estar.id
    · have hge : g = estar := hD g (List.mem_cons_self g gs) hid
      subst hge
      rw [stepGroup_gwErr env lm cm c g err hAg hBg hgwe]
      obtain ⟨hE, hV, tail', hT, hM⟩ := ih _ _ _ hA' hB' hC' hD'
      refine ⟨?_, ?_, ?_⟩
      · rw [hE, accOut_errors]
        simp [List.filter_cons]
      · rw [hV]
        simp [accOut, List.countP_cons]
      · refine ⟨pendingRow lm cm c g :: tail', ?_, ?_⟩
        · rw [hT, applyOut_disb]; simp
        · intro g' hg' hne
          rcases List.mem_cons.mp hg' with h0 | h0
          · exact absurd (by rw [h0]) hne
          · obtain ⟨dd, hdd, hdde, hdds⟩ := hM g' h0 hne
            exact ⟨dd, List.mem_cons_of_mem _ hdd, hdde, hdds⟩
    · obtain ⟨t, hgwg⟩ := hC g (List.mem_cons_self g gs) hid
      rw [stepGroup_gwOk env lm cm c g t hAg hBg hgwg]
      obtain ⟨hE, hV, tail', hT, hM⟩ := ih _ _ _ hA' hB' hC' hD'
      refine ⟨?_, ?_, ?_⟩
      · rw [hE, accOut_errors]
        simp [List.filter_cons, beq_iff_eq, hid]
      · rw [hV]
        simp [accOut, List.countP_cons, beq_iff_eq, hid]
        omega
      · refine ⟨{ pendingRow lm cm c g with
                  status := DStatus.completed, hcb_transfer_id := t } :: tail', ?_, ?_⟩
        · rw [hT, applyOut_disb]; simp
        · intro g' hg' hne
          rcases List.mem_cons.mp hg' with h0 | h0
          · subst h0
            exact ⟨_, List.mem_cons_self _ _, by simp [pendingRow], rfl⟩
          · obtain ⟨dd, hdd, hdde, hdds⟩ := hM g' h0 hne
            exact ⟨dd, List.mem_cons_of_mem _ hdd, hdde, hdds⟩

/-- Skip accounting, loop level: if `e` is the only processed row bearing
its name and its slug is empty/null, the error entries naming `e` are
exactly one non-retryable skip entry per occurrence of `e` in the row
list. -/
theorem newLoop_skip_errors (env : Env) (lm : Nat → List Nat) (cm : Nat → Int)
    (e : Event) (hse : slugFalsy e.org_slug = true) :
    ∀ (rows : List Event) (c : Nat) (db : DB) (st : NSt),
      (∀ g ∈ rows, g.name = e.name → g = e) →
      ((newLoop env lm cm rows c db st).2.errors.filter
          (fun er => er.event == some e.name))
        = (st.errors.filter (fun er => er.event == some e.name))
          ++ (rows.filter (fun g => g.name == e.name)).map
               (fun _ => (⟨none, some e.name, "Missing org_slug - cannot bill",
                 some false⟩ : ErrEntry)) := by
  intro rows
  induction rows with
  | nil => intro c db st _; simp [newLoop_nil]
  | cons g gs ih =>
    intro c db st hN
    rw [newLoop_cons]
    rw [ih _ _ _ (fun g' hg' h => hN g' (List.mem_cons_of_mem g hg') h)]
    rw [accOut_errors, List.filter_append]
    by_cases hname : g.name = e.name
    · have hge : g = e := hN g (List.mem_cons_self g gs) hname
      subst hge
      rw [stepGroup_skip env lm cm c g hse]
      simp [List.filter_cons]
    · have hfil : ((stepGroup env lm cm c g).errEntry.toList.filter
          (fun er => er.event == some e.name)) = [] := by
        cases he2 : (stepGroup env lm cm c g).errEntry with
        | none => simp
        | some er =>
          have her := stepGroup_err_some env lm cm c g er he2
          simp [her, hname]
      rw [hfil]
      simp [List.filter_cons, beq_iff_eq, hname]

/-! ### Structural lemmas about the recovery loop -/

theorem accR_zero (st : RSt) : accR st ⟨none, none, [], 0, 0, 0⟩ = st := by
  cases st; simp [accR]

theorem reconOne_notPending (env : Env) (events : List Event) (d : Disbursement)
    (h : ¬ d.status = DStatus.pending) :
    reconOne env events d = (d, ⟨none, none, [], 0, 0, 0⟩) := by
  simp [reconOne, h]

theorem reconOne_noEvent (env : Env) (events : List Event) (d : Disbursement)
    (hp : d.status = DStatus.pending)
    (hf : events.find? (fun e => e.id == d.event_id) = none) :
    reconOne env events d =
      ({ d with status := DStatus.failed, error_message := some "Event not found" },
       ⟨none, none,
        [.commitR { d with status := DStatus.failed, error_message := some "Event not found" }],
        0, 0, 0⟩) := by
  simp [reconOne, hp, hf]

theorem reconOne_ok (env : Env) (events : List Event) (d : Disbursement) (ev : Event)
    (tid : Option String) (hp : d.status = DStatus.pending)
    (hf : events.find? (fun e => e.id == d.event_id) = some ev)
    (hg : env.gw (recCall env ev d) = .ok tid) :
    reconOne env events d =
      ({ d with status := DStatus.completed, hcb_transfer_id := tid },
       ⟨none,
        some ⟨ev.name, ev.org_slug, d.letter_count, d.amount_cents, tid, d.idempotency_key⟩,
        [.retryCall d (recCall env ev d),
         .commitR { d with status := DStatus.completed, hcb_transfer_id := tid }],
        1, d.letter_count, d.amount_cents⟩) := by
  simp [reconOne, hp, hf, hg]

theorem reconOne_apiPerm (env : Env) (events : List Event) (d : Disbursement) (ev : Event)
    (e2 : HCBError) (hp : d.status = DStatus.pending)
    (hf : events.find? (fun e => e.id == d.event_id) = some ev)
    (hg : env.gw (recCall env ev d) = .apiError e2) (hperm : permanentError e2 = true) :
    reconOne env events d =
      ({ d with status := DStatus.failed, error_message := some e2.message },
       ⟨some ⟨some d.event_id, none, e2.message, none⟩, none,
        [.retryCall d (recCall env ev d),
         .commitR { d with status := DStatus.failed, error_message := some e2.message }],
        0, 0, 0⟩) := by
  simp [reconOne, hp, hf, hg, hperm]

theorem reconOne_apiTrans (env : Env) (events : List Event) (d : Disbursement) (ev : Event)
    (e2 : HCBError) (hp : d.status = DStatus.pending)
    (hf : events.find? (fun e => e.id == d.event_id) = some ev)
    (hg : env.gw (recCall env ev d) = .apiError e2) (hperm : permanentError e2 = false) :
    reconOne env events d =
      (d, ⟨some ⟨some d.event_id, none, e2.message, none⟩, none,
           [.retryCall d (recCall env ev d)], 0, 0, 0⟩) := by
  simp [reconOne, hp, hf, hg, hperm]

theorem reconOne_exn (env : Env) (events : List Event) (d : Disbursement) (ev : Event)
    (m : String) (hp : d.status = DStatus.pending)
    (hf : events.find? (fun e => e.id == d.event_id) = some ev)
    (hg : env.gw (recCall env ev d) = .exn m) :
    reconOne env events d =
      (d, ⟨some ⟨some d.event_id, none, m, none⟩, none,
           [.retryCall d (recCall env ev d)], 0, 0, 0⟩) := by
  simp [reconOne, hp, hf, hg]

/-- The recovery pass never rewrites a stored idempotency key. -/
theorem reconDisb_key (env : Env) (events : List Event) (d : Disbursement) :
    (reconDisb env events d).idempotency_key = d.idempotency_key := by
  by_cases hp : d.status = DStatus.pending
  · cases hf : events.find? (fun e => e.id == d.event_id) with
    | none => rw [reconDisb, reconOne_noEvent env events d hp hf]
    | some ev =>
      cases hg : env.gw (recCall env ev d) with
      | ok tid => rw [reconDisb, reconOne_ok env events d ev tid hp hf hg]
      | apiError e2 =>
        cases hperm : permanentError e2 with
        | true => rw [reconDisb, reconOne_apiPerm env events d ev e2 hp hf hg hperm]
        | false => rw [reconDisb, reconOne_apiTrans env events d ev e2 hp hf hg hperm]
      | exn m => rw [reconDisb, reconOne_exn env events d ev m hp hf hg]
  · rw [reconDisb, reconOne_notPending env events d hp]

/-- The recovery pass never touches a non-PENDING row. -/
theorem reconDisb_notPending (env : Env) (events : List Event) (d : Disbursement)
    (h : ¬ d.status = DStatus.pending) : reconDisb env events d = d := by
  rw [reconDisb, reconOne_notPending env events d h]

theorem reconLoop_nil (env : Env) (events : List Event) (st : RSt) :
    reconLoop env events [] st = ([], st) := rfl

theorem reconLoop_cons (env : Env) (events : List Event) (d : Disbursement)
    (ds : List Disbursement) (st : RSt) :
    reconLoop env events (d :: ds) st =
      ((reconOne env events d).1 ::
         (reconLoop env events ds (accR st (reconOne env events d).2)).1,
       (reconLoop env events ds (accR st (reconOne env events d).2)).2) := rfl

/-- The recovery loop transforms the stored rows pointwise. -/
theorem reconLoop_fst (env : Env) (events : List Event) :
    ∀ (ds : List Disbursement) (st : RSt),
      (reconLoop env events ds st).1 = ds.map (reconDisb env events) := by
  intro ds
  induction ds with
  | nil => intro st; rfl
  | cons d ds ih => intro st; rw [reconLoop_cons, ih]; rfl

/-- The recovery loop splits over list concatenation. -/
theorem reconLoop_append (env : Env) (events : List Event) :
    ∀ (l1 l2 : List Disbursement) (st : RSt),
      reconLoop env events (l1 ++ l2) st =
        ((reconLoop env events l1 st).1 ++
           (reconLoop env events l2 (reconLoop env events l1 st).2).1,
         (reconLoop env events l2 (reconLoop env events l1 st).2).2) := by
  intro l1
  induction l1 with
  | nil => intro l2 st; simp [reconLoop_nil]
  | cons d ds ih =>
    intro l2 st
    rw [List.cons_append, reconLoop_cons, ih, reconLoop_cons]
    simp

/-- Rows with no PENDING entry pass through the recovery loop untouched. -/
theorem reconLoop_nopending (env : Env) (events : List Event) :
    ∀ (ds : List Disbursement) (st : RSt),
      (∀ x ∈ ds, ¬ x.status = DStatus.pending) →
      reconLoop env events ds st = (ds, st) := by
  intro ds
  induction ds with
  | nil => intro st _; rfl
  | cons d ds ih =>
    intro st h
    rw [reconLoop_cons, reconOne_notPending env events d (h d (List.mem_cons_self d ds))]
    rw [accR_zero, ih st (fun x hx => h x (List.mem_cons_of_mem d hx))]

/-- Every trace event of the recovery loop either was already accumulated
or belongs to the iteration of some stored row. -/
theorem reconLoop_trace_mem (env : Env) (events : List Event) :
    ∀ (ds : List Disbursement) (st : RSt) (evt : REvt),
      evt ∈ (reconLoop env events ds st).2.trace →
      evt ∈ st.trace ∨ ∃ d ∈ ds, evt ∈ (reconOne env events d).2.trace := by
  intro ds
  induction ds with
  | nil => intro st evt h; exact Or.inl h
  | cons d ds ih =>
    intro st evt h
    rw [reconLoop_cons] at h
    rcases ih _ _ h with h1 | ⟨d', hd', hevt⟩
    · have : evt ∈ st.trace ++ (reconOne env events d).2.trace := h1
      rcases List.mem_append.mp this with h2 | h2
      · exact Or.inl h2
      · exact Or.inr ⟨d, List.mem_cons_self d ds, h2⟩
    · exact Or.inr ⟨d', List.mem_cons_of_mem d hd', hevt⟩

/-- A retry gateway call in a row's iteration is the retry of that very
stored row, which is PENDING, with the stored amount and the memo rebuilt
from the stored letter count. -/
theorem reconOne_retry_mem (env : Env) (events : List Event) (d x : Disbursement)
    (c : GatewayCall) (h : REvt.retryCall x c ∈ (reconOne env events d).2.trace) :
    x = d ∧ d.status = DStatus.pending ∧
    ∃ ev, events.find? (fun e => e.id == d.event_id) = some ev ∧ c = recCall env ev d := by
  by_cases hp : d.status = DStatus.pending
  · cases hf : events.find? (fun e => e.id == d.event_id) with
    | none => rw [reconOne_noEvent env events d hp hf] at h; simp at h
    | some ev =>
      cases hg : env.gw (recCall env ev d) with
      | ok tid =>
        rw [reconOne_ok env events d ev tid hp hf hg] at h
        simp at h
        exact ⟨h.1, hp, ev, rfl, h.2⟩
      | apiError e2 =>
        cases hperm : permanentError e2 with
        | true =>
          rw [reconOne_apiPerm env events d ev e2 hp hf hg hperm] at h
          simp at h
          exact ⟨h.1, hp, ev, rfl, h.2⟩
        | false =>
          rw [reconOne_apiTrans env events d ev e2 hp hf hg hperm] at h
          simp at h
          exact ⟨h.1, hp, ev, rfl, h.2⟩
      | exn m =>
        rw [reconOne_exn env events d ev m hp hf hg] at h
        simp at h
        exact ⟨h.1, hp, ev, rfl, h.2⟩
  · rw [reconOne_notPending env events d hp] at h; simp at h

/-- With all letters billed, the new-work pass finds no groups and does
nothing. -/
theorem processNew_noWork (db : DB) (env : Env)
    (hall : ∀ l ∈ db.letters, l.billing_paid = true) :
    processNewBillables db env = (db, initNSt) := by
  have h1 : snapshotUnbilled db = [] := by
    apply List.filter_eq_nil_iff.mpr
    intro l hl
    simp [hall l hl]
  have h2 : billingRows db = [] := by
    unfold billingRows
    rw [h1]
    simp
  unfold processNewBillables
  rw [h2, newLoop_nil]

/-- Ordered traces are closed under concatenation. -/
theorem cpbc_append (t1 t2 : List NEvt)
    (h1 : callPrecededByCommit t1) (h2 : callPrecededByCommit t2) :
    callPrecededByCommit (t1 ++ t2) := by
  intro i d c h
  by_cases hi : i < t1.length
  · rw [List.getElem?_append_left hi] at h
    obtain ⟨j, hj, lids, hjg, hp⟩ := h1 i d c h
    exact ⟨j, hj, lids, by rw [List.getElem?_append_left (lt_trans hj hi)]; exact hjg, hp⟩
  · push_neg at hi
    rw [List.getElem?_append_right hi] at h
    obtain ⟨j, hj, lids, hjg, hp⟩ := h2 (i - t1.length) d c h
    refine ⟨t1.length + j, by omega, lids, ?_, hp⟩
    rw [List.getElem?_append_right (Nat.le_add_right _ _)]
    have : t1.length + j - t1.length = j := by omega
    rw [this]; exact hjg

/-- In a combined run's trace, every recovery-pass event strictly precedes
every new-work-pass event: the two passes are sequential, recovery first. -/
theorem run_trace_ordered (db : DB) (env : Env) :
    ∀ (i j : Nat) (a : REvt) (b : NEvt),
      (process_billing_disbursements db env).2.trace[i]? = some (Sum.inl a) →
      (process_billing_disbursements db env).2.trace[j]? = some (Sum.inr b) →
      i < j := by
  intro i j a b hi hj
  by_cases hk : env.hcb_api_key_configured
  · simp only [process_billing_disbursements, hk, if_pos] at hi hj
    set rt := (reconcilePending db env).2.trace with hrt
    set nt := (processNewBillables (reconcilePending db env).1 env).2.trace with hnt
    have hilt : i < (rt.map (Sum.inl : REvt → Sum REvt NEvt)).length := by
      by_contra hle
      push_neg at hle
      rw [List.getElem?_append_right hle] at hi
      have hmem := List.getElem?_mem hi
      obtain ⟨x, _, hx⟩ := List.mem_map.mp hmem
      exact absurd hx (by simp)
    have hjge : (rt.map (Sum.inl : REvt → Sum REvt NEvt)).length ≤ j := by
      by_contra hlt
      push_neg at hlt
      rw [List.getElem?_append_left hlt] at hj
      have hmem := List.getElem?_mem hj
      obtain ⟨x, _, hx⟩ := List.mem_map.mp hmem
      exact absurd hx (by simp)
    omega
  · simp [process_billing_disbursements, hk] at hi

/-- The loop preserves trace orderedness: every gateway call in the final
trace is preceded by the step-3c commit of the same PENDING row. -/
theorem newLoop_ordered (env : Env) (lm : Nat → List Nat) (cm : Nat → Int) :
    ∀ (rows : List Event) (c : Nat) (db : DB) (st : NSt),
      callPrecededByCommit st.trace →
      callPrecededByCommit (newLoop env lm cm rows c db st).2.trace := by
  intro rows
  induction rows with
  | nil => intro c db st h; exact h
  | cons g gs ih =>
    intro c db st h
    rw [newLoop_cons]
    apply ih
    rw [accOut_trace]
    exact cpbc_append _ _ h (stepGroup_ordered env lm cm c g)

/-- Helper: the processed-group ids, in order, read off a new-work trace
(each iteration opens with exactly one of `skipGroup`, `commit3c`,
`commit3cFail`). -/
def groupStarts (t : List NEvt) : List Nat :=
  t.filterMap (fun evt =>
    match evt with
    | NEvt.skipGroup eid => some eid
    | NEvt.commit3c d _ => some d.event_id
    | NEvt.commit3cFail eid => some eid
    | _ => none)

theorem stepGroup_starts (env : Env) (lm : Nat → List Nat) (cm : Nat → Int)
    (k : Nat) (g : Event) : groupStarts (stepGroup env lm cm k g).trace = [g.id] := by
  cases hs : slugFalsy g.org_slug with
  | true => rw [stepGroup_skip _ _ _ _ _ hs]; rfl
  | false =>
    cases hc : env.commitOk g.id with
    | false => rw [stepGroup_commitFail _ _ _ _ _ hs hc]; rfl
    | true =>
      cases hgw : env.gw ⟨g.org_slug, env.fulfillment_org_slug, cm g.id,
          memoFor (lm g.id).length⟩ with
      | ok tid => rw [stepGroup_gwOk _ _ _ _ _ _ hs hc hgw]; rfl
      | apiError e => rw [stepGroup_gwErr _ _ _ _ _ _ hs hc hgw]; rfl
      | exn m => rw [stepGroup_gwExn _ _ _ _ _ _ hs hc hgw]; rfl

theorem newLoop_starts (env : Env) (lm : Nat → List Nat) (cm : Nat → Int) :
    ∀ (rows : List Event) (c : Nat) (db : DB) (st : NSt),
      groupStarts (newLoop env lm cm rows c db st).2.trace
        = groupStarts st.trace ++ rows.map (fun e => e.id) := by
  intro rows
  induction rows with
  | nil => intro c db st; simp [newLoop_nil]
  | cons g gs ih =>
    intro c db st
    rw [newLoop_cons, ih, accOut_trace]
    unfold groupStarts
    rw [List.filterMap_append]
    have := stepGroup_starts env lm cm c g
    unfold groupStarts at this
    rw [this]
    simp

theorem countP_not_add (l : List Event) (p : Event → Bool) :
    l.countP (fun a => !p a) + l.countP p = l.length := by
  induction l with
  | nil => rfl
  | cons a t ih =>
    simp only [List.countP_cons, List.length_cons]
    cases p a <;> simp <;> omega

/-! ### Concrete fixtures -/

/-- The end-to-end scenario of spec §8: organization "acme" with three
unbilled items costing 500, 700, 300 minor units. -/
def dbC8 : DB :=
  { letters := [⟨1, 1, some 500, false⟩, ⟨2, 1, some 700, false⟩, ⟨3, 1, some 300, false⟩],
    events := [⟨1, "Organization A", some "acme"⟩],
    disbursements := [] }

/-- Environment whose gateway always succeeds with transfer id "tx_1" and
whose commits always succeed. -/
def envC8 : Env :=
  { gw := fun _ => .ok (some "tx_1"), commitOk := fun _ => true,
    fulfillment_org_slug := "hermes-fulfillment", hcb_api_key_configured := true }

/-- Two organizations stored in descending-id order, both with unbilled
letters. -/
def dbC9 : DB :=
  { letters := [⟨1, 2, some 100, false⟩, ⟨2, 1, some 200, false⟩],
    events := [⟨2, "Org Two", some "two"⟩, ⟨1, "Org One", some "one"⟩],
    disbursements := [] }

/-! ### Claims -/

/-- C8: for a single organization with slug "acme" and exactly three
unbilled items costing 500, 700 and 300 minor units, one run of the
new-work pass creates exactly one Disbursement with amount 1500 and item
count 3, calls the gateway exactly once with amount 1500, and — the
gateway responding successfully with transfer id "tx_1" — completes the
Disbursement with that transfer id, flags all three items billed, and
returns events_processed = 1, letters_billed = 3, total_amount_cents =
1500 (the spec's organizations_processed / items_billed / total_amount). -/
theorem claim_C8 :
    (processNewBillables dbC8 envC8).1.disbursements =
      [⟨"uuid-0", 1, 1500, 3, DStatus.completed, some "tx_1", none⟩] ∧
    ((processNewBillables dbC8 envC8).2.trace.filterMap (fun evt =>
        match evt with
        | NEvt.callNew _ c => some c.amount_cents
        | _ => none)) = [1500] ∧
    ((processNewBillables dbC8 envC8).1.letters.all (fun l => l.billing_paid)) = true ∧
    (processNewBillables dbC8 envC8).2.events_processed = 1 ∧
    (processNewBillables dbC8 envC8).2.letters_billed = 3 ∧
    (processNewBillables dbC8 envC8).2.total_amount_cents = 1500 := by
  decide

/-- C3 counterexample: in the end-to-end run, the single gateway call's
memo is "Hermes Fulfillment // 3 Letters", which does not contain the
created Disbursement's idempotency key as a substring — so the claim that
every gateway call's memo embeds the idempotency key is false for this
input. -/
theorem claim_C3_counterexample :
    ((processNewBillables dbC8 envC8).2.trace.filterMap (fun evt =>
        match evt with
        | NEvt.callNew d c => some (strEmbeds d.idempotency_key c.name)
        | _ => none)) = [false] := by
  decide

/-- C3 amended: every gateway call made by either pass (first attempt or
retry) carries the memo "Hermes Fulfillment // {letter_count} Letters"
built from the row's letter count, and the row's amount — the idempotency
key is stored on the row but not embedded in the memo or any other field
of the call. -/
theorem claim_C3_amended (db : DB) (env : Env) :
    (∀ d c, Sum.inr (NEvt.callNew d c) ∈ (process_billing_disbursements db env).2.trace →
      c.name = memoFor d.letter_count ∧ c.amount_cents = d.amount_cents) ∧
    (∀ d c, Sum.inl (REvt.retryCall d c) ∈ (process_billing_disbursements db env).2.trace →
      c.name = memoFor d.letter_count ∧ c.amount_cents = d.amount_cents) := by
  by_cases hk : env.hcb_api_key_configured
  · constructor
    · intro d c hmem
      simp only [process_billing_disbursements, hk, if_pos] at hmem
      rcases List.mem_append.mp hmem with h1 | h1
      · obtain ⟨x, _, hx⟩ := List.mem_map.mp h1
        simp at hx
      · obtain ⟨x, hx1, hx2⟩ := List.mem_map.mp h1
        have hx : x = NEvt.callNew d c := by
          have := Sum.inr.inj hx2
          exact this
        rw [hx] at hx1
        rcases newLoop_trace_mem env _ _ _ _ _ _ _ hx1 with h2 | ⟨k, g, _, h2⟩
        · simp [initNSt] at h2
        · obtain ⟨_, _, hd, hc⟩ := stepGroup_callNew_mem _ _ _ _ _ _ _ h2
          subst hd; subst hc
          exact ⟨by simp [pendingRow], by simp [pendingRow]⟩
    · intro d c hmem
      simp only [process_billing_disbursements, hk, if_pos] at hmem
      rcases List.mem_append.mp hmem with h1 | h1
      · obtain ⟨x, hx1, hx2⟩ := List.mem_map.mp h1
        have hx : x = REvt.retryCall d c := Sum.inl.inj hx2
        rw [hx] at hx1
        rcases reconLoop_trace_mem _ _ _ _ _ hx1 with h2 | ⟨d', _, h2⟩
        · simp [initRSt] at h2
        · obtain ⟨hxd, _, ev, _, hcall⟩ := reconOne_retry_mem _ _ _ _ _ h2
          subst hxd; subst hcall
          exact ⟨rfl, rfl⟩
      · obtain ⟨x, _, hx⟩ := List.mem_map.mp h1
        simp at hx
  · constructor <;> intro d c hmem <;>
      simp [process_billing_disbursements, hk] at hmem

/-- The PENDING row and gateway call of the end-to-end fixture's run. -/
def dC3 : Disbursement := ⟨"uuid-0", 1, 1500, 3, DStatus.pending, none, none⟩

def cC3 : GatewayCall :=
  ⟨some "acme", "hermes-fulfillment", 1500, "Hermes Fulfillment // 3 Letters"⟩

/-- Witness for C3 amended at the end-to-end fixture: the gateway call of
the run is in the trace and its memo is the letter-count template. -/
theorem claim_C3_amended_witness :
    Sum.inr (NEvt.callNew dC3 cC3) ∈ (process_billing_disbursements dbC8 envC8).2.trace ∧
    cC3.name = memoFor dC3.letter_count :=
  have hm : (process_billing_disbursements dbC8 envC8).2.trace[1]?
      = some (Sum.inr (NEvt.callNew dC3 cC3)) := by decide
  ⟨List.getElem?_mem hm,
   ((claim_C3_amended dbC8 envC8).1 dC3 cC3 (List.getElem?_mem hm)).1⟩

/-- C9 counterexample: with two organizations stored in descending-id
order, the new-work pass processes the groups in the stored query order
[2, 1], which is not ascending by organization id — so "ascending by
organization id" is false for this input. -/
theorem claim_C9_counterexample :
    groupStarts (processNewBillables dbC9 envC8).2.trace = [2, 1] ∧
    ¬ List.Sorted (· ≤ ·) (groupStarts (processNewBillables dbC9 envC8).2.trace) := by
  constructor
  · decide
  · intro h
    rw [show groupStarts (processNewBillables dbC9 envC8).2.trace = [2, 1] from by decide] at h
    have := List.rel_of_sorted_cons h 1 (by simp)
    omega

/-- C9 amended: the new-work pass processes the organization groups
exactly in the order the event-details query returns them (the stored
order — the query carries no ORDER BY, so ascending id order is not
enforced); for a fixed snapshot and stored order the processing sequence
is this fixed function of the store. -/
theorem claim_C9_amended (db : DB) (env : Env) :
    groupStarts (processNewBillables db env).2.trace
      = (billingRows db).map (fun e => e.id) := by
  show groupStarts (newLoop env (lmapD db) (cmapD db) (billingRows db) 0 db initNSt).2.trace = _
  rw [newLoop_starts]
  rfl

/-- C4: in the recovery pass, for a PENDING Disbursement whose retry
raises a gateway error: status 400, 403 or 404 transitions it to FAILED
with the error detail persisted in `error_message`; any other or absent
status leaves the row untouched (still PENDING, eligible for retry).
The first conjunct shows the pass is the pointwise row transformation
`reconDisb`; the second ties the classification test to exactly
{400, 403, 404}. -/
theorem claim_C4 (db : DB) (env : Env) (d : Disbursement) (ev : Event) (err : HCBError)
    (hd : d ∈ db.disbursements) (hp : d.status = DStatus.pending)
    (hev : db.events.find? (fun e => e.id == d.event_id) = some ev)
    (hgw : env.gw (recCall env ev d) = .apiError err) :
    (reconcilePending db env).1.disbursements
        = db.disbursements.map (reconDisb env db.events) ∧
    (permanentError err = true ↔
      (err.status_code = some 400 ∨ err.status_code = some 403 ∨
       err.status_code = some 404)) ∧
    (permanentError err = true →
      reconDisb env db.events d
        = { d with status := DStatus.failed, error_message := some err.message }) ∧
    (permanentError err = false → reconDisb env db.events d = d) := by
  refine ⟨?_, ?_, ?_, ?_⟩
  · show (reconLoop env db.events db.disbursements initRSt).1 = _
    exact reconLoop_fst env db.events db.disbursements initRSt
  · cases hsc : err.status_code with
    | none => simp [permanentError, hsc]
    | some code => simp [permanentError, hsc]; tauto
  · intro hperm
    rw [reconDisb, reconOne_apiPerm env db.events d ev err hp hev hgw hperm]
  · intro hperm
    rw [reconDisb, reconOne_apiTrans env db.events d ev err hp hev hgw hperm]

def dW4 : Disbursement := ⟨"key-w4", 1, 100, 2, DStatus.pending, none, none⟩

def evW4 : Event := ⟨1, "Org W4", some "w4"⟩

def dbW4 : DB := { letters := [], events := [evW4], disbursements := [dW4] }

def errW4 : HCBError := ⟨"unknown account", some 404⟩

def envW4 : Env :=
  { gw := fun _ => .apiError errW4, commitOk := fun _ => true,
    fulfillment_org_slug := "hermes-fulfillment", hcb_api_key_configured := true }

/-- Witness for C4: a 404 retry failure turns the concrete PENDING row
FAILED with the error message persisted. -/
theorem claim_C4_witness :
    permanentError errW4 = true ∧
    reconDisb envW4 dbW4.events dW4
      = { dW4 with status := DStatus.failed,
                   error_message := some "unknown account" } :=
  ⟨by decide, by
    have h := claim_C4 dbW4 envW4 dW4 evW4 errW4 (by decide) (by decide)
      (by decide) (by decide)
    exact h.2.2.1 (by decide)⟩

/-- C1: the new-work pass's safety contract.  First conjunct: every
gateway call in the pass's trace is preceded by the step-3c commit that
durably wrote that same still-PENDING row together with its flagged
letter ids (row creation and flagging are one commit, before the call).
Second conjunct: if the step-3c commit for group `g` fails, no gateway
call is made for that group, the letters of that event are left exactly
as they were (no item flagged billed), and no Disbursement row for that
event is added. -/
theorem claim_C1 (db : DB) (env : Env) (g : Event)
    (hlids : (db.letters.map (fun l => l.id)).Nodup)
    (hg : g ∈ billingRows db) (hslug : slugFalsy g.org_slug = false) :
    callPrecededByCommit (processNewBillables db env).2.trace ∧
    (env.commitOk g.id = false →
      (∀ d c, NEvt.callNew d c ∈ (processNewBillables db env).2.trace →
        d.event_id ≠ g.id) ∧
      ((processNewBillables db env).1.letters.filter (fun l => l.event_id == g.id)
        = db.letters.filter (fun l => l.event_id == g.id)) ∧
      (∀ dd ∈ (processNewBillables db env).1.disbursements,
        dd.event_id = g.id → dd ∈ db.disbursements)) := by
  constructor
  · apply newLoop_ordered
    intro i d c h
    simp [initNSt] at h
  · intro hcf
    refine ⟨?_, ?_, ?_⟩
    · intro d c hmem heq
      rcases newLoop_trace_mem env _ _ _ _ _ _ _ hmem with h2 | ⟨k, g', _, h2⟩
      · simp [initNSt] at h2
      · obtain ⟨_, hcg, hd, _⟩ := stepGroup_callNew_mem _ _ _ _ _ _ _ h2
        have : d.event_id = g'.id := by rw [hd]; rfl
        rw [heq] at this
        rw [← this] at hcg
        rw [hcf] at hcg
        exact Bool.false_ne_true hcg
    · exact newBillables_letters_filter db env g.id hlids
        (fun g' _ hid => Or.inr (by rw [hid]; exact hcf))
    · intro dd hdd heq
      obtain ⟨tail, ht, hm⟩ := newLoop_disb env (lmapD db) (cmapD db) (billingRows db) 0 db initNSt
      replace hdd : dd ∈ db.disbursements ++ tail := by rw [← ht]; exact hdd
      rcases List.mem_append.mp hdd with h2 | h2
      · exact h2
      · exfalso
        obtain ⟨k, g', _, h3⟩ := hm dd h2
        obtain ⟨_, hcg, hde, _⟩ := stepGroup_newDisb_some _ _ _ _ _ _ h3
        rw [heq] at hde
        rw [hde] at hcf
        rw [hcf] at hcg
        exact Bool.false_ne_true hcg

def dbW1 : DB :=
  { letters := [⟨1, 1, some 100, false⟩],
    events := [⟨1, "Org W1", some "w1"⟩],
    disbursements := [] }

def envW1 : Env :=
  { gw := fun _ => .ok (some "tx"), commitOk := fun _ => false,
    fulfillment_org_slug := "hermes-fulfillment", hcb_api_key_configured := true }

/-- Witness for C1: with the step-3c commit failing for the only group,
the letters of that event come out exactly as they went in. -/
theorem claim_C1_witness :
    ((dbW1.letters.map (fun l => l.id)).Nodup ∧
      (⟨1, "Org W1", some "w1"⟩ : Event) ∈ billingRows dbW1 ∧
      envW1.commitOk 1 = false) ∧
    ((processNewBillables dbW1 envW1).1.letters.filter (fun l => l.event_id == 1)
      = dbW1.letters.filter (fun l => l.event_id == 1)) :=
  ⟨⟨by decide, by decide, by decide⟩,
   ((claim_C1 dbW1 envW1 ⟨1, "Org W1", some "w1"⟩ (by decide) (by decide)
      (by decide)).2 (by decide)).2.1⟩

/-- C7: an organization group with a null or empty account slug yields, in
the new-work pass: exactly one error entry naming it — the non-retryable
skip entry; no gateway call for it; no new Disbursement row for it; and
its letters exactly as they went in (still unbilled). -/
theorem claim_C7 (db : DB) (env : Env) (e : Event)
    (hids : (db.events.map (fun x => x.id)).Nodup)
    (hnames : (db.events.map (fun x => x.name)).Nodup)
    (hlids : (db.letters.map (fun l => l.id)).Nodup)
    (he : e ∈ db.events)
    (hslug : slugFalsy e.org_slug = true)
    (hunb : ∃ l ∈ db.letters, l.event_id = e.id ∧ l.billing_paid = false) :
    ((processNewBillables db env).2.errors.filter (fun er => er.event == some e.name))
      = [⟨none, some e.name, "Missing org_slug - cannot bill", some false⟩] ∧
    (∀ d c, NEvt.callNew d c ∈ (processNewBillables db env).2.trace →
      d.event_id ≠ e.id) ∧
    (∀ dd ∈ (processNewBillables db env).1.disbursements,
      dd.event_id = e.id → dd ∈ db.disbursements) ∧
    ((processNewBillables db env).1.letters.filter (fun l => l.event_id == e.id)
      = db.letters.filter (fun l => l.event_id == e.id)) := by
  have hrows : e ∈ billingRows db := by
    apply List.mem_filter.mpr
    refine ⟨he, ?_⟩
    obtain ⟨l, hl, hle, hlp⟩ := hunb
    apply List.any_eq_true.mpr
    refine ⟨l, List.mem_filter.mpr ⟨hl, by simp [hlp]⟩, by simp [hle]⟩
  have hN : ∀ g ∈ billingRows db, g.name = e.name → g = e := fun g hg hn =>
    List.inj_on_of_nodup_map hnames (List.mem_of_mem_filter hg) he hn
  have hIdInj : ∀ g ∈ billingRows db, g.id = e.id → g = e := fun g hg hn =>
    List.inj_on_of_nodup_map hids (List.mem_of_mem_filter hg) he hn
  refine ⟨?_, ?_, ?_, ?_⟩
  · have h1 := newLoop_skip_errors env (lmapD db) (cmapD db) e hslug
      (billingRows db) 0 db initNSt hN
    have hrowsnames : ((billingRows db).map (fun x => x.name)).Nodup :=
      List.Nodup.sublist (List.Sublist.map _ (List.filter_sublist _)) hnames
    have hone : (billingRows db).filter (fun g => g.name == e.name) = [e] :=
      filter_beq_singleton_str _ e (fun x => x.name) hrowsnames hrows
    show ((newLoop env (lmapD db) (cmapD db) (billingRows db) 0 db initNSt).2.errors.filter
        (fun er => er.event == some e.name)) = _
    rw [h1, hone]
    rfl
  · intro d c hmem heq
    rcases newLoop_trace_mem env _ _ _ _ _ _ _ hmem with h2 | ⟨k, g', hg', h2⟩
    · simp [initNSt] at h2
    · obtain ⟨hsg, _, hd, _⟩ := stepGroup_callNew_mem _ _ _ _ _ _ _ h2
      have hde : d.event_id = g'.id := by rw [hd]; rfl
      rw [heq] at hde
      have : g' = e := hIdInj g' hg' hde.symm
      rw [this] at hsg
      rw [hslug] at hsg
      exact absurd hsg (by decide)
  · intro dd hdd heq
    obtain ⟨tail, ht, hm⟩ := newLoop_disb env (lmapD db) (cmapD db) (billingRows db) 0 db initNSt
    replace hdd : dd ∈ db.disbursements ++ tail := by rw [← ht]; exact hdd
    rcases List.mem_append.mp hdd with h2 | h2
    · exact h2
    · exfalso
      obtain ⟨k, g', hg', h3⟩ := hm dd h2
      obtain ⟨hsg, _, hde, _⟩ := stepGroup_newDisb_some _ _ _ _ _ _ h3
      rw [heq] at hde
      have : g' = e := hIdInj g' hg' hde.symm
      rw [this] at hsg
      rw [hslug] at hsg
      exact absurd hsg (by decide)
  · exact newBillables_letters_filter db env e.id hlids
      (fun g' hg' hid => Or.inl (by rw [hIdInj g' hg' hid]; exact hslug))

def dbW7 : DB :=
  { letters := [⟨1, 1, some 50, false⟩],
    events := [⟨1, "No Slug Org", none⟩],
    disbursements := [] }

/-- Witness for C7: the slugless concrete organization gets exactly the one
skip entry and its letter stays unbilled. -/
theorem claim_C7_witness :
    (slugFalsy (none : Option String) = true ∧
      (∃ l ∈ dbW7.letters, l.event_id = 1 ∧ l.billing_paid = false)) ∧
    ((processNewBillables dbW7 envC8).2.errors.filter
        (fun er => er.event == some "No Slug Org"))
      = [⟨none, some "No Slug Org", "Missing org_slug - cannot bill", some false⟩] :=
  ⟨⟨by decide, by decide⟩,
   (claim_C7 dbW7 envC8 ⟨1, "No Slug Org", none⟩ (by decide) (by decide) (by decide)
      (by decide) (by decide) (by decide)).1⟩

/-- Pending-after-commit accounting, loop level: when the gateway errors on
the calls of group `e` (whose slug check passes and whose commit
succeeds), the appended rows for that event id are exactly one PENDING row
per occurrence of the id among the processed rows, each with the
snapshot's amount and letter count and no transfer id or error detail. -/
theorem newLoop_pendingErr (env : Env) (lm : Nat → List Nat) (cm : Nat → Int)
    (e : Event) (err : HCBError)
    (hs : slugFalsy e.org_slug = false) (hc : env.commitOk e.id = true)
    (hgwe : env.gw ⟨e.org_slug, env.fulfillment_org_slug, cm e.id,
        memoFor (lm e.id).length⟩ = .apiError err) :
    ∀ (rows : List Event) (c : Nat) (db : DB) (st : NSt),
      (∀ g ∈ rows, g.id = e.id → g = e) →
      ∃ tail, (newLoop env lm cm rows c db st).1.disbursements
          = db.disbursements ++ tail ∧
        ∃ keys : List String,
          tail.filter (fun dd => dd.event_id == e.id)
            = keys.map (fun k => (⟨k, e.id, cm e.id, (lm e.id).length,
                DStatus.pending, none, none⟩ : Disbursement)) ∧
          keys.length = (rows.filter (fun g => g.id == e.id)).length := by
  intro rows
  induction rows with
  | nil =>
    intro c db st _
    exact ⟨[], by simp [newLoop_nil], [], by simp, by simp⟩
  | cons g gs ih =>
    intro c db st hD
    rw [newLoop_cons]
    by_cases hid : g.id = e.id
    · have hge : g = e := hD g (List.mem_cons_self g gs) hid
      subst hge
      rw [stepGroup_gwErr env lm cm c g err hs hc hgwe]
      obtain ⟨tail', ht, keys', hk1, hk2⟩ :=
        ih _ _ _ (fun g' h hq => hD g' (List.mem_cons_of_mem g h) hq)
      refine ⟨pendingRow lm cm c g :: tail', ?_, freshKey c :: keys', ?_, ?_⟩
      · rw [ht, applyOut_disb]; simp
      · simp only [List.filter_cons, pendingRow]
        simp [hk1, pendingRow]
      · simp [List.filter_cons, hk2]
    · obtain ⟨tail', ht, keys', hk1, hk2⟩ :=
        ih _ _ _ (fun g' h hq => hD g' (List.mem_cons_of_mem g h) hq)
      refine ⟨(stepGroup env lm cm c g).newDisb.toList ++ tail', ?_, keys', ?_, ?_⟩
      · rw [ht, applyOut_disb, List.append_assoc]
      · rw [List.filter_append]
        have hnil : ((stepGroup env lm cm c g).newDisb.toList.filter
            (fun dd => dd.event_id == e.id)) = [] := by
          cases hnd : (stepGroup env lm cm c g).newDisb with
          | none => rfl
          | some dd =>
            obtain ⟨_, _, hde, _⟩ := stepGroup_newDisb_some _ _ _ _ _ _ hnd
            simp [hde, beq_iff_eq, hid]
        rw [hnil, hk1]
        rfl
      · rw [hk2, List.filter_cons_of_neg]
        simp [beq_iff_eq, hid]

/-- The error entry of any processed row's iteration lands in the loop's
final error list. -/
theorem newLoop_err_of_mem (env : Env) (lm : Nat → List Nat) (cm : Nat → Int) :
    ∀ (rows : List Event) (c : Nat) (db : DB) (st : NSt) (g : Event), g ∈ rows →
      ∃ k, ∀ er, (stepGroup env lm cm k g).errEntry = some er →
        er ∈ (newLoop env lm cm rows c db st).2.errors := by
  intro rows
  induction rows with
  | nil => intro c db st g h; exact absurd h (List.not_mem_nil g)
  | cons g' gs ih =>
    intro c db st g hg
    rcases List.mem_cons.mp hg with h0 | h0
    · subst h0
      refine ⟨c, fun er her => ?_⟩
      rw [newLoop_cons]
      obtain ⟨suff, hsuff⟩ := newLoop_errors_grow env lm cm gs _ _ _
      rw [hsuff, accOut_errors, her]
      simp
    · obtain ⟨k, hk⟩ := ih (c + (if (stepGroup env lm cm c g').usedKey then 1 else 0))
        (applyOut db (stepGroup env lm cm c g')) (accOut st (stepGroup env lm cm c g')) g h0
      exact ⟨k, fun er her => by rw [newLoop_cons]; exact hk er her⟩

/-- C10: in the new-work pass, any gateway error — whatever its status
code, including the "permanent" 400/403/404 — leaves exactly one
just-created Disbursement for the group in PENDING (never FAILED in this
pass, no transfer id, no error detail), with the group's letters flagged
billed, and appends a retryable error entry; FAILED classification is the
recovery pass's job on a later run. -/
theorem claim_C10 (db : DB) (env : Env) (e : Event) (err : HCBError)
    (hids : (db.events.map (fun x => x.id)).Nodup)
    (he : e ∈ billingRows db)
    (hslug : slugFalsy e.org_slug = false)
    (hcommit : env.commitOk e.id = true)
    (herr : env.gw (mkCallFor db env e) = .apiError err) :
    (∃ tail, (processNewBillables db env).1.disbursements
        = db.disbursements ++ tail ∧
      ∃ key, tail.filter (fun dd => dd.event_id == e.id)
        = [⟨key, e.id, cmapD db e.id, (lmapD db e.id).length,
            DStatus.pending, none, none⟩]) ∧
    (∀ l ∈ (processNewBillables db env).1.letters, l.event_id = e.id →
      l.billing_paid = true) ∧
    (⟨none, some e.name, err.message, some true⟩ : ErrEntry)
      ∈ (processNewBillables db env).2.errors := by
  have hD : ∀ g ∈ billingRows db, g.id = e.id → g = e := fun g hgr hid =>
    List.inj_on_of_nodup_map hids (List.mem_of_mem_filter hgr)
      (List.mem_of_mem_filter he) hid
  refine ⟨?_, ?_, ?_⟩
  · obtain ⟨tail, ht, keys, hk1, hk2⟩ := newLoop_pendingErr env (lmapD db) (cmapD db)
      e err hslug hcommit herr (billingRows db) 0 db initNSt hD
    have hrowsids : ((billingRows db).map (fun x => x.id)).Nodup :=
      List.Nodup.sublist (List.Sublist.map _ (List.filter_sublist _)) hids
    have hone : (billingRows db).filter (fun g => g.id == e.id) = [e] :=
      filter_beq_singleton _ e (fun x => x.id) hrowsids he
    rw [hone] at hk2
    cases keys with
    | nil => simp at hk2
    | cons key rest =>
      cases rest with
      | nil => exact ⟨tail, ht, key, by rw [hk1]; rfl⟩
      | cons a b => simp at hk2
  · exact newBillables_letters_billed db env e he hslug hcommit
  · obtain ⟨k, hk⟩ := newLoop_err_of_mem env (lmapD db) (cmapD db)
      (billingRows db) 0 db initNSt e he
    apply hk
    rw [stepGroup_gwErr env (lmapD db) (cmapD db) k e err hslug hcommit herr]

def dbW10 : DB :=
  { letters := [⟨1, 1, some 100, false⟩],
    events := [⟨1, "Org W10", some "w10"⟩],
    disbursements := [] }

def envW10 : Env :=
  { gw := fun _ => .apiError ⟨"oops", some 404⟩, commitOk := fun _ => true,
    fulfillment_org_slug := "hermes-fulfillment", hcb_api_key_configured := true }

/-- Witness for C10: a 404 in the new-work pass leaves the concrete row
PENDING with its letter billed and a retryable error entry recorded. -/
theorem claim_C10_witness :
    (envW10.gw (mkCallFor dbW10 envW10 ⟨1, "Org W10", some "w10"⟩)
        = .apiError ⟨"oops", some 404⟩ ∧
      (⟨1, "Org W10", some "w10"⟩ : Event) ∈ billingRows dbW10) ∧
    (⟨none, some "Org W10", "oops", some true⟩ : ErrEntry)
      ∈ (processNewBillables dbW10 envW10).2.errors :=
  ⟨⟨by decide, by decide⟩,
   (claim_C10 dbW10 envW10 ⟨1, "Org W10", some "w10"⟩ ⟨"oops", some 404⟩
      (by decide) (by decide) (by decide) (by decide) (by decide)).2.2⟩

/-- C6: group isolation in the new-work pass.  When one organization's
gateway calls raise an `HCBAPIError` and every other processed group's
call succeeds (all slugs present, all step-3c commits succeeding), the
pass still processes every other group to completion — each gets a
COMPLETED Disbursement and is counted — and the run's error list is
exactly one retryable entry for the failing organization.  No exception
escapes: the pass is a total function returning these counters. -/
theorem claim_C6 (db : DB) (env : Env) (estar : Event) (err : HCBError)
    (hids : (db.events.map (fun x => x.id)).Nodup)
    (hestar : estar ∈ billingRows db)
    (hslugs : ∀ g ∈ billingRows db, slugFalsy g.org_slug = false)
    (hcommits : ∀ g ∈ billingRows db, env.commitOk g.id = true)
    (hok : ∀ g ∈ billingRows db, g.id ≠ estar.id →
      ∃ t, env.gw (mkCallFor db env g) = .ok t)
    (herr : env.gw (mkCallFor db env estar) = .apiError err) :
    (processNewBillables db env).2.errors
      = [⟨none, some estar.name, err.message, some true⟩] ∧
    (processNewBillables db env).2.events_processed = (billingRows db).length - 1 ∧
    (∀ g ∈ billingRows db, g.id ≠ estar.id →
      ∃ dd ∈ (processNewBillables db env).1.disbursements,
        dd.event_id = g.id ∧ dd.status = DStatus.completed) := by
  have hD : ∀ g ∈ billingRows db, g.id = estar.id → g = estar := fun g hgr hid =>
    List.inj_on_of_nodup_map hids (List.mem_of_mem_filter hgr)
      (List.mem_of_mem_filter hestar) hid
  obtain ⟨hE, hV, tail, hT, hM⟩ := newLoop_isolation env (lmapD db) (cmapD db)
    estar err herr (billingRows db) 0 db initNSt hslugs hcommits hok hD
  have hrowsids : ((billingRows db).map (fun x => x.id)).Nodup :=
    List.Nodup.sublist (List.Sublist.map _ (List.filter_sublist _)) hids
  have hone : (billingRows db).filter (fun g => g.id == estar.id) = [estar] :=
    filter_beq_singleton _ estar (fun x => x.id) hrowsids hestar
  refine ⟨?_, ?_, ?_⟩
  · have hgoal : (processNewBillables db env).2.errors
        = initNSt.errors ++ ((billingRows db).filter
            (fun g => g.id == estar.id)).map
              (fun _ => (⟨none, some estar.name, err.message, some true⟩ : ErrEntry)) := hE
    rw [hgoal, hone]
    rfl
  · have hgoal : (processNewBillables db env).2.events_processed
        = initNSt.events_processed
          + (billingRows db).countP (fun g => !(g.id == estar.id)) := hV
    rw [hgoal]
    have h2 : (billingRows db).countP (fun g => g.id == estar.id) = 1 := by
      rw [List.countP_eq_length_filter, hone]
      rfl
    have h3 := countP_not_add (billingRows db) (fun g => g.id == estar.id)
    simp only [initNSt]
    omega
  · intro g hg hne
    obtain ⟨dd, hdd, h1, h2⟩ := hM g hg hne
    refine ⟨dd, ?_, h1, h2⟩
    have hgoal : (processNewBillables db env).1.disbursements
        = db.disbursements ++ tail := hT
    rw [hgoal]
    exact List.mem_append_right _ hdd

def eA6 : Event := ⟨1, "Org A6", some "a6"⟩

def eB6 : Event := ⟨2, "Org B6", some "b6"⟩

def eC6 : Event := ⟨3, "Org C6", some "c6"⟩

def dbW6 : DB :=
  { letters := [⟨1, 1, some 100, false⟩, ⟨2, 2, some 200, false⟩,
                ⟨3, 3, some 300, false⟩],
    events := [eA6, eB6, eC6],
    disbursements := [] }

def errW6 : HCBError := ⟨"gateway down", some 500⟩

def envW6 : Env :=
  { gw := fun call => if call.source_org_slug == some "b6"
      then .apiError errW6 else .ok (some "tx6"),
    commitOk := fun _ => true,
    fulfillment_org_slug := "hermes-fulfillment", hcb_api_key_configured := true }

/-- Witness for C6: three organizations, the second's gateway call raises;
the error list of the pass is exactly the one retryable entry for it. -/
theorem claim_C6_witness :
    (eB6 ∈ billingRows dbW6 ∧
      envW6.gw (mkCallFor dbW6 envW6 eB6) = .apiError errW6) ∧
    (processNewBillables dbW6 envW6).2.errors
      = [⟨none, some "Org B6", "gateway down", some true⟩] :=
  ⟨⟨by decide, by decide⟩,
   (claim_C6 dbW6 envW6 eB6 errW6 (by decide) (by decide)
      (by decide) (by decide)
      (by
        intro g hg hne
        rw [show billingRows dbW6 = [eA6, eB6, eC6] from by decide] at hg
        simp only [List.mem_cons, List.not_mem_nil, or_false] at hg
        rcases hg with rfl | rfl | rfl
        · exact ⟨some "tx6", by decide⟩
        · exact absurd rfl hne
        · exact ⟨some "tx6", by decide⟩)
      (by decide)).1⟩

/-- C5: idempotency-key discipline.  The recovery pass never rewrites any
row's stored key (pointwise); a full run only appends freshly keyed rows
after the existing rows, whose keys all come out unchanged and in place;
and every retry gateway call of the recovery pass is made for a stored
PENDING row exactly as stored — key included — so the second attempt's key
equals the first's. -/
theorem claim_C5 (db : DB) (env : Env) (henv : env.hcb_api_key_configured = true) :
    (∀ d, (reconDisb env db.events d).idempotency_key = d.idempotency_key) ∧
    (∃ created, (process_billing_disbursements db env).1.disbursements.map
          (fun x => x.idempotency_key)
        = db.disbursements.map (fun x => x.idempotency_key) ++ created) ∧
    (∀ d c, Sum.inl (REvt.retryCall d c) ∈ (process_billing_disbursements db env).2.trace →
      d ∈ db.disbursements ∧ d.status = DStatus.pending) := by
  refine ⟨fun d => reconDisb_key env db.events d, ?_, ?_⟩
  · obtain ⟨tail, ht, _⟩ := newLoop_disb env (lmapD (reconcilePending db env).1)
      (cmapD (reconcilePending db env).1) (billingRows (reconcilePending db env).1)
      0 (reconcilePending db env).1 initNSt
    refine ⟨tail.map (fun x => x.idempotency_key), ?_⟩
    have hrun : (process_billing_disbursements db env).1
        = (processNewBillables (reconcilePending db env).1 env).1 := by
      simp [process_billing_disbursements, henv]
    have hPN : (processNewBillables (reconcilePending db env).1 env).1.disbursements
        = (reconcilePending db env).1.disbursements ++ tail := ht
    have h1 : (reconcilePending db env).1.disbursements
        = db.disbursements.map (reconDisb env db.events) :=
      reconLoop_fst env db.events db.disbursements initRSt
    rw [hrun, hPN, h1, List.map_append, List.map_map]
    congr 1
    exact List.map_eq_map_iff.mpr (fun a _ => reconDisb_key env db.events a)
  · intro d c hmem
    simp only [process_billing_disbursements, henv, if_pos] at hmem
    rcases List.mem_append.mp hmem with h1 | h1
    · obtain ⟨x, hx1, hx2⟩ := List.mem_map.mp h1
      have hx : x = REvt.retryCall d c := Sum.inl.inj hx2
      rw [hx] at hx1
      rcases reconLoop_trace_mem _ _ _ _ _ hx1 with h2 | ⟨d', hd', h2⟩
      · simp [initRSt] at h2
      · obtain ⟨hxd, hpend, _⟩ := reconOne_retry_mem _ _ _ _ _ h2
        rw [hxd]
        exact ⟨hd', hpend⟩
    · obtain ⟨x, _, hx2⟩ := List.mem_map.mp h1
      simp at hx2

def dW5 : Disbursement := ⟨"key-w5", 1, 100, 1, DStatus.pending, none, none⟩

def dbW5 : DB :=
  { letters := [], events := [⟨1, "Org W5", some "w5"⟩], disbursements := [dW5] }

def envW5 : Env :=
  { gw := fun _ => .ok (some "t5"), commitOk := fun _ => true,
    fulfillment_org_slug := "hermes-fulfillment", hcb_api_key_configured := true }

def cW5 : GatewayCall :=
  ⟨some "w5", "hermes-fulfillment", 100, "Hermes Fulfillment // 1 Letters"⟩

/-- Witness for C5: the retry call observed in a concrete run is for the
stored PENDING row, key and all. -/
theorem claim_C5_witness :
    envW5.hcb_api_key_configured = true ∧
    (dW5 ∈ dbW5.disbursements ∧ dW5.status = DStatus.pending) :=
  ⟨by decide,
   (claim_C5 dbW5 envW5 (by decide)).2.2 dW5 cW5
     (List.getElem?_mem
       (show (process_billing_disbursements dbW5 envW5).2.trace[0]?
           = some (Sum.inl (REvt.retryCall dW5 cW5)) from by decide))⟩

/-- C2: crash-after-commit recovery.  First conjunct, for every run: the
recovery pass strictly precedes the new-work pass (every recovery trace
event sits before every new-work trace event).  The rest: starting from
the state a crash after step 3c leaves behind — the Disbursement `d`
PENDING (the store's only PENDING row) with every letter already flagged
billed — the next run's recovery pass completes `d` to COMPLETED with the
gateway's transfer id, re-flags nothing (letters unchanged), groups
nothing into a second Disbursement (the stored rows are only updated in
place, none added), counts `d`'s letters exactly once, and reports no
errors. -/
theorem claim_C2 (db : DB) (env : Env) (d : Disbursement) (ev : Event)
    (tid : Option String) (D1 D2 : List Disbursement)
    (hsplit : db.disbursements = D1 ++ d :: D2)
    (hp : d.status = DStatus.pending)
    (hD1 : ∀ x ∈ D1, ¬ x.status = DStatus.pending)
    (hD2 : ∀ x ∈ D2, ¬ x.status = DStatus.pending)
    (hall : ∀ l ∈ db.letters, l.billing_paid = true)
    (henv : env.hcb_api_key_configured = true)
    (hev : db.events.find? (fun e => e.id == d.event_id) = some ev)
    (hgw : env.gw (recCall env ev d) = .ok tid) :
    (∀ (db' : DB) (env' : Env) (i j : Nat) (a : REvt) (b : NEvt),
      (process_billing_disbursements db' env').2.trace[i]? = some (Sum.inl a) →
      (process_billing_disbursements db' env').2.trace[j]? = some (Sum.inr b) →
      i < j) ∧
    (process_billing_disbursements db env).1.letters = db.letters ∧
    (process_billing_disbursements db env).1.disbursements
      = D1 ++ { d with status := DStatus.completed, hcb_transfer_id := tid } :: D2 ∧
    (process_billing_disbursements db env).2.events_processed = 1 ∧
    (process_billing_disbursements db env).2.letters_billed = d.letter_count ∧
    (process_billing_disbursements db env).2.total_amount_cents = d.amount_cents ∧
    (process_billing_disbursements db env).2.errors = [] := by
  have h1 : ∀ st, reconLoop env db.events D1 st = (D1, st) :=
    fun st => reconLoop_nopending env db.events D1 st hD1
  have h3 : ∀ st, reconLoop env db.events D2 st = (D2, st) :=
    fun st => reconLoop_nopending env db.events D2 st hD2
  have h2 := reconOne_ok env db.events d ev tid hp hev hgw
  have hloop : reconLoop env db.events db.disbursements initRSt
      = (D1 ++ { d with status := DStatus.completed, hcb_transfer_id := tid } :: D2,
         accR initRSt
           ⟨none,
            some ⟨ev.name, ev.org_slug, d.letter_count, d.amount_cents, tid,
              d.idempotency_key⟩,
            [.retryCall d (recCall env ev d),
             .commitR { d with status := DStatus.completed, hcb_transfer_id := tid }],
            1, d.letter_count, d.amount_cents⟩) := by
    rw [hsplit, reconLoop_append]
    simp only [h1, reconLoop_cons, h2, h3]
  have hrec1 : (reconcilePending db env).1
      = { db with disbursements :=
            D1 ++ { d with status := DStatus.completed, hcb_transfer_id := tid } :: D2 } := by
    show ({ db with disbursements :=
        (reconLoop env db.events db.disbursements initRSt).1 } : DB) = _
    rw [hloop]
  have hrec2 : (reconcilePending db env).2
      = accR initRSt
          ⟨none,
           some ⟨ev.name, ev.org_slug, d.letter_count, d.amount_cents, tid,
             d.idempotency_key⟩,
           [.retryCall d (recCall env ev d),
            .commitR { d with status := DStatus.completed, hcb_transfer_id := tid }],
           1, d.letter_count, d.amount_cents⟩ := by
    show (reconLoop env db.events db.disbursements initRSt).2 = _
    rw [hloop]
  have hnew : processNewBillables (reconcilePending db env).1 env
      = ((reconcilePending db env).1, initNSt) := by
    apply processNew_noWork
    rw [hrec1]
    intro l hl
    exact hall l hl
  have hrun : process_billing_disbursements db env
      = ((reconcilePending db env).1,
         { events_processed := (reconcilePending db env).2.events_processed + 0,
           letters_billed := (reconcilePending db env).2.letters_billed + 0,
           total_amount_cents := (reconcilePending db env).2.total_amount_cents + 0,
           errors := (reconcilePending db env).2.errors ++ [],
           notifs := (reconcilePending db env).2.notifs ++ [],
           trace := (reconcilePending db env).2.trace.map Sum.inl
             ++ ([] : List NEvt).map Sum.inr,
           skipped := false }) := by
    simp only [process_billing_disbursements, henv, if_pos, hnew]
    rfl
  refine ⟨fun db' env' => run_trace_ordered db' env', ?_, ?_, ?_, ?_, ?_, ?_⟩
  · rw [hrun, hrec1]
  · rw [hrun, hrec1]
  · rw [hrun]; simp [hrec2, accR, initRSt]
  · rw [hrun]; simp [hrec2, accR, initRSt]
  · rw [hrun]; simp [hrec2, accR, initRSt]
  · rw [hrun]; simp [hrec2, accR, initRSt]

def evW2 : Event := ⟨1, "Org W2", some "w2"⟩

def dW2 : Disbursement := ⟨"key-w2", 1, 100, 1, DStatus.pending, none, none⟩

def dbW2 : DB :=
  { letters := [⟨1, 1, some 100, true⟩], events := [evW2], disbursements := [dW2] }

def envW2 : Env :=
  { gw := fun _ => .ok (some "t2"), commitOk := fun _ => true,
    fulfillment_org_slug := "hermes-fulfillment", hcb_api_key_configured := true }

/-- Witness for C2: a concrete crash-after-commit state is completed by
the next run without adding rows or touching letters. -/
theorem claim_C2_witness :
    (dbW2.disbursements = [] ++ dW2 :: [] ∧ dW2.status = DStatus.pending ∧
      envW2.gw (recCall envW2 evW2 dW2) = .ok (some "t2")) ∧
    (process_billing_disbursements dbW2 envW2).1.disbursements
      = [] ++ ({ dW2 with status := DStatus.completed, hcb_transfer_id := some "t2" } :: []) :=
  ⟨⟨by decide, by decide, by decide⟩,
   (claim_C2 dbW2 envW2 dW2 evW2 (some "t2") [] [] (by decide) (by decide)
      (by intro x hx; simp at hx) (by intro x hx; simp at hx)
      (by intro l hl; simp [dbW2] at hl; rw [hl]) (by decide) (by decide)
      (by decide)).2.2.1⟩

end Hermes
